import Mathlib

/-!
# Zhang-Suen thinning (`zs_thinning.cc`): shallow embedding and verified properties

The embedding follows `src/zs_thinning.cc`.

* `cv::Mat` (one element of type `T` per cell) is a record of its dimensions and
  a cell map.  Every `at<T>(y,x)` access is bounds checked: an access outside
  the matrix is undefined behaviour in the source and is the fault
  `Fault.outOfBounds` here.
* `int` counters are natural numbers.  `pixelsRemoved` never exceeds the number
  of cells and `pass` never exceeds twice the number of cells plus four, so no
  counter leaves the range of `int` on a matrix OpenCV can allocate.
* The element type `T` only needs a decidable equality (`p != bgColor`); for
  the `float` and `double` instantiations this covers grids without NaN.
* `Work.log` is a ghost record of the executed passes (stage, pass number,
  returned removal count); the source keeps only the last two counts.
* The two `do ... while` loops of `zs_thinning` take fuel; running out of fuel
  is the fault `Fault.outOfFuel`.  `zs_thinning` supplies one unit of fuel more
  than the source has foreground cells, and is proved never to run out.
-/

namespace ZsThinning

/-! ## Data model -/

/-- Ways in which a run of the embedded program can go wrong. -/
inductive Fault where
  | outOfBounds
  | outOfFuel
deriving DecidableEq

/-- Model of `cv::Mat` with one element of type `T` per cell. -/
structure Mat (T : Type) where
  rows : Nat
  cols : Nat
  cell : Nat → Nat → T

set_option linter.unusedSectionVars false

variable {T : Type} [DecidableEq T]

/-- Rvalue use of `m.at<T>(y,x)`. -/
def Mat.read (m : Mat T) (y x : Nat) : Except Fault T :=
  if y < m.rows ∧ x < m.cols then .ok (m.cell y x) else .error .outOfBounds

/-- Assignment `m.at<T>(y,x) = v`. -/
def Mat.write (m : Mat T) (y x : Nat) (v : T) : Except Fault (Mat T) :=
  if y < m.rows ∧ x < m.cols then
    .ok { m with cell := fun y' x' => if y' = y ∧ x' = x then v else m.cell y' x' }
  else .error .outOfBounds

/-- Model of `m.setTo(v)`: every cell becomes `v`. -/
def Mat.setTo (m : Mat T) (v : T) : Mat T :=
  { m with cell := fun _ _ => v }

/-- Matrix built from a list of rows; cells missing from the lists hold `d`. -/
def Mat.ofRows (rows cols : Nat) (d : T) (l : List (List T)) : Mat T :=
  { rows := rows, cols := cols, cell := fun y x => (l.getD y []).getD x d }

/-- The cells of a matrix, as a list of rows. -/
def Mat.toRows (m : Mat T) : List (List T) :=
  (List.range m.rows).map fun y => (List.range m.cols).map fun x => m.cell y x

/-- Two matrices have the same dimensions and hold the same values. -/
def Mat.Same (a b : Mat T) : Prop :=
  a.rows = b.rows ∧ a.cols = b.cols ∧
    ∀ y, y < a.rows → ∀ x, x < a.cols → a.cell y x = b.cell y x

instance (a b : Mat T) : Decidable (Mat.Same a b) := by
  unfold Mat.Same; infer_instance

/-! ## The removal tables -/

/-- The literal `REMOVE_FLAGS` of `_thin`: one table of 256 entries per stage. -/
def REMOVE_FLAGS : List (List Nat) := [
  [ 0,0,0,0,0,0,1,3,0,0,3,1,1,0,1,3,0,0,0,0,0,0,0,0,0,0,2,0,3,0,3,3,
    0,0,0,0,0,0,0,0,3,0,0,0,0,0,0,0,0,0,0,0,0,0,0,0,2,0,0,0,3,0,2,2,
    0,0,0,0,0,0,0,0,0,0,0,0,0,0,0,0,0,0,0,0,0,0,0,0,0,0,0,0,0,0,0,0,
    2,0,0,0,0,0,0,0,2,0,0,0,2,0,0,0,3,0,0,0,0,0,0,0,3,0,0,0,3,0,2,0,
    0,0,3,1,0,0,1,3,0,0,0,0,0,0,0,1,0,0,0,0,0,0,0,0,0,0,0,0,0,0,0,1,
    3,1,0,0,0,0,0,0,0,0,0,0,0,0,0,0,2,0,0,0,0,0,0,0,0,0,0,0,0,0,0,0,
    2,3,1,3,0,0,1,3,0,0,0,0,0,0,0,1,0,0,0,0,0,0,0,0,0,0,0,0,0,0,0,0,
    2,3,0,1,0,0,0,1,0,0,0,0,0,0,0,0,3,3,0,1,0,0,0,0,2,2,0,0,2,0,0,0 ],
  [ 0,0,0,1,0,0,0,0,0,0,0,0,0,0,0,0,0,0,0,0,0,0,0,0,2,0,2,2,0,0,0,0,
    0,0,0,0,0,0,0,0,0,0,0,0,0,0,2,0,2,0,0,0,0,0,0,0,0,0,2,0,0,0,0,0,
    0,0,0,0,0,0,0,0,0,0,0,0,0,0,0,0,0,0,0,0,0,0,0,0,0,0,0,0,0,0,0,0,
    0,0,0,0,0,0,0,0,0,0,0,0,0,0,0,0,0,0,0,0,0,0,0,0,0,0,0,0,0,0,0,0,
    0,1,0,0,0,0,0,0,0,0,0,0,0,0,0,0,0,0,0,0,0,0,0,0,0,0,2,0,0,0,0,0,
    0,0,0,0,0,0,0,0,0,0,0,0,0,0,0,0,0,0,0,0,0,0,0,0,2,0,0,0,0,0,0,0,
    0,0,0,0,0,0,0,0,0,0,0,0,0,0,0,0,0,0,0,0,0,0,0,0,0,0,0,0,0,0,0,0,
    0,0,1,0,0,0,0,0,0,0,0,0,0,0,0,0,0,0,0,0,0,0,0,0,0,0,0,0,0,0,0,0 ] ]

/-- The table `rflags=REMOVE_FLAGS[stage?1:0]`. -/
def rflagsOf (stage : Nat) : List Nat :=
  REMOVE_FLAGS.getD (if stage ≠ 0 then 1 else 0) []

/-- The mask `rmask=(pass&1)?2:1`. -/
def rmaskOf (pass : Nat) : Nat :=
  if pass &&& 1 ≠ 0 then 2 else 1

/-- The lookup `rflags[index]`; an index outside the table is a fault. -/
def lookup (rflags : List Nat) (index : Nat) : Except Fault Nat :=
  match rflags.get? index with
  | some f => .ok f
  | none => .error .outOfBounds

/-! ## One pass: `_thin` -/

/-- The variables the column loop of `_thin` carries from one window to the next. -/
structure Window (T : Type) where
  index : Nat
  p5 : T
  p6 : T
  dst : Mat T
  pixelsRemoved : Nat

/-- The statement `if(v!=bgColor) index|=bit;`. -/
def orIf (index : Nat) (v bgColor : T) (bit : Nat) : Nat :=
  if v ≠ bgColor then index ||| bit else index

/-- Body of the column loop of `_thin` for the window centred at `(cy,cx)`,
with `nx = cx+1`. -/
def colStep (src : Mat T) (rflags : List Nat) (rmask : Nat) (bgColor : T)
    (py cy ny cx nx : Nat) (w : Window T) : Except Fault (Window T) := do
  let index := ((w.index &&& 0x106) >>> 1) ||| ((w.index &&& 0x030) <<< 1)
  let p5 := w.p6
  let p3 ← src.read py nx
  let index := orIf index p3 bgColor 0x04
  let p6 ← src.read cy nx
  let index := orIf index p6 bgColor 0x08
  let p9 ← src.read ny nx
  let index := orIf index p9 bgColor 0x10
  if p5 ≠ bgColor then
    let flag ← lookup rflags index
    if flag &&& rmask ≠ 0 then
      pure { index := index ||| 0x100, p5 := p5, p6 := p6, dst := w.dst,
             pixelsRemoved := w.pixelsRemoved + 1 }
    else
      let dst ← w.dst.write cy cx p5
      pure { index := index ||| 0x100, p5 := p5, p6 := p6, dst := dst,
             pixelsRemoved := w.pixelsRemoved }
  else
    pure { index := index, p5 := p5, p6 := p6, dst := w.dst,
           pixelsRemoved := w.pixelsRemoved }

/-- The column loop `for(++cx,++nx;nx<x_end;cx++,nx++)`, entered with `n`
iterations left, the next one centred at column `cx`. -/
def colLoop (src : Mat T) (rflags : List Nat) (rmask : Nat) (bgColor : T)
    (py cy ny : Nat) : Nat → Nat → Window T → Except Fault (Window T)
  | 0, _, w => pure w
  | n + 1, cx, w => do
    let w' ← colStep src rflags rmask bgColor py cy ny cx (cx + 1) w
    colLoop src rflags rmask bgColor py cy ny n (cx + 1) w'

/-- Body of the row loop of `_thin`: the initial index of the row, then the
column loop.  `nx` starts at 2 after `++nx` and the loop runs while
`nx<x_end`, that is `x_end - 2` times. -/
def rowStep (src : Mat T) (rflags : List Nat) (rmask : Nat) (bgColor : T)
    (py cy ny : Nat) (dst : Mat T) (pixelsRemoved : Nat) :
    Except Fault (Mat T × Nat) := do
  let x_end := src.cols - 1
  let cx := 0
  let nx := 1
  let index := 0
  let p2 ← src.read py cx
  let index := orIf index p2 bgColor 0x02
  let p3 ← src.read py nx
  let index := orIf index p3 bgColor 0x04
  let p5 ← src.read cy cx
  let index := orIf index p5 bgColor 0x100
  let p6 ← src.read cy nx
  let index := orIf index p6 bgColor 0x08
  let p8 ← src.read ny cx
  let index := orIf index p8 bgColor 0x20
  let p9 ← src.read ny nx
  let index := orIf index p9 bgColor 0x10
  let w ← colLoop src rflags rmask bgColor py cy ny (x_end - 2) (cx + 1)
    { index := index, p5 := p5, p6 := p6, dst := dst, pixelsRemoved := pixelsRemoved }
  pure (w.dst, w.pixelsRemoved)

/-- The row loop `for(int py=0,cy=1,ny=2;ny<y_end;py++,cy++,ny++)`, entered
with `n` iterations left, the next one with previous row `py`. -/
def rowLoop (src : Mat T) (rflags : List Nat) (rmask : Nat) (bgColor : T) :
    Nat → Nat → Mat T → Nat → Except Fault (Mat T × Nat)
  | 0, _, dst, pixelsRemoved => pure (dst, pixelsRemoved)
  | n + 1, py, dst, pixelsRemoved => do
    let (dst', pixelsRemoved') ←
      rowStep src rflags rmask bgColor py (py + 1) (py + 2) dst pixelsRemoved
    rowLoop src rflags rmask bgColor n (py + 1) dst' pixelsRemoved'

/-- Model of `_thin(src,dst,stage,pass,bgColor)`: the new contents of `dst` and
the returned number of removed pixels.  `ny` starts at 2 and the row loop runs
while `ny<y_end`, that is `y_end - 2` times (truncated subtraction: no
iteration when `src.rows <= 3`, as in the source, where `y_end` may be `-1`). -/
def _thin (src dst : Mat T) (stage pass : Nat) (bgColor : T) :
    Except Fault (Mat T × Nat) :=
  let rflags := rflagsOf stage
  let rmask := rmaskOf pass
  let dst := dst.setTo bgColor
  let y_end := src.rows - 1
  rowLoop src rflags rmask bgColor (y_end - 2) 0 dst 0

/-! ## The controller: `zs_thinning` -/

/-- Ghost record of one executed pass: its stage, its pass number and the
value `_thin` returned. -/
structure PassLog where
  stage : Nat
  pass : Nat
  pixelsRemoved : Nat
deriving DecidableEq

/-- The working buffers and the pass counter of `zs_thinning`, with (ghost) the
record of the passes executed so far, oldest first. -/
structure Work (T : Type) where
  work0 : Mat T
  work1 : Mat T
  pass : Nat
  log : List PassLog

/-- Body of both `do ... while` loops: two passes, `work0` to `work1` and
back; also returns the value of `pixelsRemoved` the loop condition tests. -/
def sweep (stage : Nat) (bgColor : T) (s : Work T) : Except Fault (Work T × Nat) := do
  let (work1, r0) ← _thin s.work0 s.work1 stage s.pass bgColor
  let (work0, r1) ← _thin work1 s.work0 stage (s.pass + 1) bgColor
  pure ({ work0 := work0, work1 := work1, pass := s.pass + 2,
          log := s.log ++ [⟨stage, s.pass, r0⟩, ⟨stage, s.pass + 1, r1⟩] }, r0 + r1)

/-- The loop `do{ ... }while(pixelsRemoved>0);` of one stage, with fuel. -/
def stageLoop (stage : Nat) (bgColor : T) : Nat → Work T → Except Fault (Work T)
  | 0, _ => .error .outOfFuel
  | fuel + 1, s => do
    let (s', pixelsRemoved) ← sweep stage bgColor s
    if pixelsRemoved > 0 then stageLoop stage bgColor fuel s' else pure s'

/-- The buffer `work0` after `work0.setTo(bgColor); src.copyTo(win);`, where
`win` is the region `cv::Rect(1,1,src.cols,src.rows)` of `work0`. -/
def padded (src : Mat T) (bgColor : T) : Mat T :=
  { rows := src.rows + 2, cols := src.cols + 2,
    cell := fun y x =>
      if 1 ≤ y ∧ y ≤ src.rows ∧ 1 ≤ x ∧ x ≤ src.cols then src.cell (y - 1) (x - 1)
      else bgColor }

/-- The matrix `win.copyTo(dst)` leaves in `dst`: the region
`cv::Rect(1,1,cols,rows)` of `work0`. -/
def cropped (work0 : Mat T) (rows cols : Nat) : Mat T :=
  { rows := rows, cols := cols, cell := fun y x => work0.cell (y + 1) (x + 1) }

/-- The cell `(y,x)` of `m` is foreground: it differs from `bgColor`. -/
def Mat.fg (m : Mat T) (bgColor : T) (y x : Nat) : Bool :=
  decide (m.cell y x ≠ bgColor)

/-- Number of cells `(y,x)` with `y < rows`, `x < cols` that satisfy `p`. -/
def countCells (rows cols : Nat) (p : Nat → Nat → Bool) : Nat :=
  ((List.range rows).map fun y => ((List.range cols).filter (p y)).length).sum

/-- Number of foreground cells of `m`. -/
def fgCount (m : Mat T) (bgColor : T) : Nat :=
  countCells m.rows m.cols (m.fg bgColor)

/-- The two stages of `zs_thinning`, with the given fuel for each loop. -/
def zsRun (fuel : Nat) (src : Mat T) (bgColor : T) : Except Fault (Work T) := do
  let work0 := padded src bgColor
  let work1 := work0
  let s0 ← stageLoop 0 bgColor fuel
    { work0 := work0, work1 := work1, pass := 0, log := [] }
  stageLoop 1 bgColor fuel s0

/-- Model of `zs_thinning(src,dst,bgColor)`: the matrix left in `dst` and the
returned pass count. -/
def zs_thinning (src : Mat T) (bgColor : T) : Except Fault (Mat T × Nat) := do
  let s ← zsRun (fgCount src bgColor + 1) src bgColor
  pure (cropped s.work0 src.rows src.cols, s.pass)

/-- The record of all passes `zs_thinning(src,dst,bgColor)` executes. -/
def zsLog (src : Mat T) (bgColor : T) : Except Fault (List PassLog) := do
  let s ← zsRun (fgCount src bgColor + 1) src bgColor
  pure s.log

/-! ## Specification-level definitions -/

/-- The value `bit` when `b` holds, else 0. -/
def bitIf (b : Bool) (bit : Nat) : Nat := if b then bit else 0

/-- The 8-bit code of a neighbourhood, in the bit assignment documented in
`_thin`: `p1` is `0x01`, `p2` `0x02`, `p3` `0x04`, `p6` `0x08`, `p9` `0x10`,
`p8` `0x20`, `p7` `0x40`, `p4` `0x80`. -/
def code8 (b1 b2 b3 b4 b6 b7 b8 b9 : Bool) : Nat :=
  bitIf b1 0x01 ||| bitIf b2 0x02 ||| bitIf b3 0x04 ||| bitIf b6 0x08 |||
  bitIf b9 0x10 ||| bitIf b8 0x20 ||| bitIf b7 0x40 ||| bitIf b4 0x80

/-- The bits of `index` the slide keeps: `p2`, `p3`, `p5`, `p8`, `p9`. -/
def head5 (b2 b3 b5 b8 b9 : Bool) : Nat :=
  bitIf b2 0x02 ||| bitIf b3 0x04 ||| bitIf b5 0x100 ||| bitIf b8 0x20 ||| bitIf b9 0x10

/-- Directly computed 8-neighbour occupancy code of `(cy,cx)` in `src`, for
`1 ≤ cy` and `1 ≤ cx`. -/
def neighbourCode (src : Mat T) (bgColor : T) (cy cx : Nat) : Nat :=
  code8 (src.fg bgColor (cy - 1) (cx - 1)) (src.fg bgColor (cy - 1) cx)
    (src.fg bgColor (cy - 1) (cx + 1)) (src.fg bgColor cy (cx - 1))
    (src.fg bgColor cy (cx + 1)) (src.fg bgColor (cy + 1) (cx - 1))
    (src.fg bgColor (cy + 1) cx) (src.fg bgColor (cy + 1) (cx + 1))

/-- The table entry at `index`, 0 outside the table. -/
def flagAt (rflags : List Nat) (index : Nat) : Nat := rflags.getD index 0

/-- The table tells the pass to remove a foreground pixel at `(cy,cx)`. -/
def removedAt (src : Mat T) (rflags : List Nat) (rmask : Nat) (bgColor : T)
    (cy cx : Nat) : Bool :=
  src.fg bgColor cy cx && decide (flagAt rflags (neighbourCode src bgColor cy cx) &&& rmask ≠ 0)

/-- The table tells the pass to copy a foreground pixel at `(cy,cx)`. -/
def keptAt (src : Mat T) (rflags : List Nat) (rmask : Nat) (bgColor : T)
    (cy cx : Nat) : Bool :=
  src.fg bgColor cy cx && decide (flagAt rflags (neighbourCode src bgColor cy cx) &&& rmask = 0)

/-- What the column loop knows of the window centred at `(cy,cx)` when it
enters its body: the bits of `p2`, `p3`, `p5`, `p8`, `p9` of `index` describe
columns `cx - 1` and `cx`. -/
def headInv (src : Mat T) (bgColor : T) (cy cx : Nat) (index : Nat) : Prop :=
  index &&& 0x136 = head5 (src.fg bgColor (cy - 1) (cx - 1)) (src.fg bgColor (cy - 1) cx)
    (src.fg bgColor cy (cx - 1)) (src.fg bgColor (cy + 1) (cx - 1)) (src.fg bgColor (cy + 1) cx)

/-- Number of pixels of row `cy`, columns `a` to `b - 1`, the table tells the
pass to remove. -/
def rowRemoved (src : Mat T) (rflags : List Nat) (rmask : Nat) (bgColor : T)
    (cy a b : Nat) : Nat :=
  ∑ x in Finset.Ico a b, if removedAt src rflags rmask bgColor cy x = true then 1 else 0

/-- The cell `(y,x)` is visited by the scan of `_thin` on `src`. -/
def scanned (src : Mat T) (y x : Nat) : Bool :=
  decide (1 ≤ y ∧ y + 2 < src.rows ∧ 1 ≤ x ∧ x + 2 < src.cols)

/-- Closed form of the cell `(y,x)` of `dst` after a pass. -/
def thinCell (src : Mat T) (rflags : List Nat) (rmask : Nat) (bgColor : T) (y x : Nat) : T :=
  if 1 ≤ y ∧ y + 2 < src.rows ∧ 1 ≤ x ∧ x + 2 < src.cols ∧
      keptAt src rflags rmask bgColor y x = true
  then src.cell y x else bgColor

/-- Closed form of `dst` after a pass. -/
def thinMat (src : Mat T) (rflags : List Nat) (rmask : Nat) (bgColor : T) : Mat T :=
  { rows := src.rows, cols := src.cols, cell := thinCell src rflags rmask bgColor }

/-- Closed form of the number of pixels a pass removes. -/
def thinRemoved (src : Mat T) (rflags : List Nat) (rmask : Nat) (bgColor : T) : Nat :=
  ∑ i in Finset.Ico 0 (0 + (src.rows - 1 - 2)),
    rowRemoved src rflags rmask bgColor (i + 1) 1 (1 + (src.cols - 3))

/-- Every cell of `b` holds what `a` holds there or the background value, and
the dimensions agree. -/
def Shrinks (bgColor : T) (a b : Mat T) : Prop :=
  b.rows = a.rows ∧ b.cols = a.cols ∧ ∀ y x, b.cell y x = a.cell y x ∨ b.cell y x = bgColor

/-- The buffers of `s` have the same dimensions and at least two columns, as
all working buffers of `zs_thinning` do. -/
def Work.Good (s : Work T) : Prop :=
  s.work1.rows = s.work0.rows ∧ s.work1.cols = s.work0.cols ∧ 2 ≤ s.work0.cols

/-- Closed form of the state after one `do ... while` body. -/
def sweepWork (stage : Nat) (bgColor : T) (s : Work T) : Work T :=
  { work0 := thinMat (thinMat s.work0 (rflagsOf stage) (rmaskOf s.pass) bgColor)
      (rflagsOf stage) (rmaskOf (s.pass + 1)) bgColor,
    work1 := thinMat s.work0 (rflagsOf stage) (rmaskOf s.pass) bgColor,
    pass := s.pass + 2,
    log := s.log ++
      [⟨stage, s.pass, thinRemoved s.work0 (rflagsOf stage) (rmaskOf s.pass) bgColor⟩,
       ⟨stage, s.pass + 1,
        thinRemoved (thinMat s.work0 (rflagsOf stage) (rmaskOf s.pass) bgColor)
          (rflagsOf stage) (rmaskOf (s.pass + 1)) bgColor⟩] }

/-- Closed form of `pixelsRemoved` after one `do ... while` body. -/
def sweepRemoved (stage : Nat) (bgColor : T) (s : Work T) : Nat :=
  thinRemoved s.work0 (rflagsOf stage) (rmaskOf s.pass) bgColor +
  thinRemoved (thinMat s.work0 (rflagsOf stage) (rmaskOf s.pass) bgColor)
    (rflagsOf stage) (rmaskOf (s.pass + 1)) bgColor

/-- The states a `do ... while` loop of `zs_thinning` can leave: `StageSteps
stage bgColor s s'` when iterating the body from `s` stops in `s'`, after the
first body whose two passes remove nothing. -/
inductive StageSteps (stage : Nat) (bgColor : T) : Work T → Work T → Prop where
  | last (s : Work T) : sweepRemoved stage bgColor s = 0 →
      StageSteps stage bgColor s (sweepWork stage bgColor s)
  | more (s s' : Work T) : 0 < sweepRemoved stage bgColor s →
      StageSteps stage bgColor (sweepWork stage bgColor s) s' →
      StageSteps stage bgColor s s'

/-- The state in which `zs_thinning` enters its first loop. -/
def initWork (src : Mat T) (bgColor : T) : Work T :=
  { work0 := padded src bgColor, work1 := padded src bgColor, pass := 0, log := [] }

/-- Sum of the removal counts of a pass record. -/
def totalRemoved (log : List PassLog) : Nat :=
  (log.map fun e => e.pixelsRemoved).sum

/-- A pass has nothing to remove from `m`: `m` has at most 3 rows or at most 3
columns (no cell is scanned), or every cell of `m` is background. -/
def Inert (bgColor : T) (m : Mat T) : Prop :=
  m.rows ≤ 3 ∨ m.cols ≤ 3 ∨ ∀ y x, m.cell y x = bgColor

/-- Every cell of `m` the scan of `_thin` does not visit is background. -/
def Framed (bgColor : T) (m : Mat T) : Prop :=
  ∀ y x, scanned m y x = false → m.cell y x = bgColor

/-- Neither pass of `stage` removes a pixel of `m`. -/
def Settled (stage : Nat) (bgColor : T) (m : Mat T) : Prop :=
  ∀ pass, thinRemoved m (rflagsOf stage) (rmaskOf pass) bgColor = 0

/-- A successful result that satisfies the check `p`. -/
def okAnd {α : Type} (r : Except Fault α) (p : α → Bool) : Bool :=
  match r with
  | .ok a => p a
  | .error _ => false

/-! ## Connectivity of the foreground (specification level) -/

/-- The foreground cells of `m`, row by row. -/
def fgCells (m : Mat T) (bgColor : T) : List (Nat × Nat) :=
  (List.range m.rows).flatMap fun y =>
    ((List.range m.cols).filter fun x => m.fg bgColor y x).map fun x => (y, x)

/-- Two different cells touch by a side or by a corner. -/
def adjacent8 (a b : Nat × Nat) : Bool :=
  decide (a ≠ b ∧ a.1 ≤ b.1 + 1 ∧ b.1 ≤ a.1 + 1 ∧ a.2 ≤ b.2 + 1 ∧ b.2 ≤ a.2 + 1)

/-- The cells of `cells` that are in `seen` or touch a cell of `seen`. -/
def grow (cells seen : List (Nat × Nat)) : List (Nat × Nat) :=
  cells.filter fun c => seen.contains c || seen.any (adjacent8 c)

/-- The 8-connected component of `seed` among `cells`: `grow` repeated once
per cell reaches every cell a chain of touching cells links to `seed`. -/
def componentOf (cells : List (Nat × Nat)) (seed : Nat × Nat) : List (Nat × Nat) :=
  (grow cells)^[cells.length] [seed]

/-- Number of 8-connected components among `cells`: the component of the first
cell is counted and taken away, at most `fuel` times. -/
def countComponents : Nat → List (Nat × Nat) → Nat
  | 0, _ => 0
  | _ + 1, [] => 0
  | fuel + 1, c :: rest =>
    1 + countComponents fuel (rest.filter fun d => !(componentOf (c :: rest) c).contains d)

/-- Number of 8-connected components of the foreground of `m`. -/
def components (m : Mat T) (bgColor : T) : Nat :=
  countComponents (fgCells m bgColor).length (fgCells m bgColor)

/-- Number of foreground cells of `m` among the 8 neighbours of `(y,x)`. -/
def fgNeighbours (m : Mat T) (bgColor : T) (y x : Nat) : Nat :=
  ((fgCells m bgColor).filter fun c => adjacent8 (y, x) c).length

/-! ## Concrete grids -/

/-- A 3x3 grid with one pixel in the first and one in the last cell. -/
def twoCorners : Mat Nat := Mat.ofRows 3 3 0 [[1, 0, 0], [0, 0, 0], [0, 0, 1]]

/-- A 3x3 grid that holds one diagonal line, one pixel wide. -/
def diagonal3 : Mat Nat := Mat.ofRows 3 3 0 [[1, 0, 0], [0, 1, 0], [0, 0, 1]]

/-- A 7x7 grid that holds a filled 5x5 block of value 255 on background 0. -/
def block5 : Mat Nat := Mat.ofRows 7 7 0
  [[0, 0, 0, 0, 0, 0, 0],
   [0, 255, 255, 255, 255, 255, 0],
   [0, 255, 255, 255, 255, 255, 0],
   [0, 255, 255, 255, 255, 255, 0],
   [0, 255, 255, 255, 255, 255, 0],
   [0, 255, 255, 255, 255, 255, 0],
   [0, 0, 0, 0, 0, 0, 0]]

/-- The record of the passes of `zs_thinning` on `block5`. -/
def block5Log : List PassLog :=
  [⟨0, 0, 8⟩, ⟨0, 1, 6⟩, ⟨0, 2, 4⟩, ⟨0, 3, 3⟩, ⟨0, 4, 0⟩, ⟨0, 5, 0⟩, ⟨1, 6, 0⟩, ⟨1, 7, 0⟩]

/-- A 4x5 grid, last row and last column background, on which stage 1 removes
a pixel that stage 0 kept. -/
def hook : Mat Nat := Mat.ofRows 4 5 0
  [[0, 0, 0, 1, 0],
   [0, 0, 1, 0, 0],
   [1, 1, 1, 1, 0],
   [0, 0, 0, 0, 0]]

/-- A 2x2 grid with three foreground cells. -/
def corner2 : Mat Nat := Mat.ofRows 2 2 0 [[1, 1], [1, 0]]

/-- A 1x1 grid whose only cell is foreground. -/
def onePixel : Mat Nat := Mat.ofRows 1 1 0 [[1]]

/-- The outer ring of `m` (row 0, last row, column 0, last column) holds only
the background value. -/
def RingBg (bgColor : T) (m : Mat T) : Prop :=
  ∀ y x, y < m.rows → x < m.cols → (y = 0 ∨ y + 1 = m.rows ∨ x = 0 ∨ x + 1 = m.cols) →
    m.cell y x = bgColor

/-- Number of neighbours among the eight that are foreground. -/
def count8 (b1 b2 b3 b4 b6 b7 b8 b9 : Bool) : Nat :=
  bitIf b1 1 + bitIf b2 1 + bitIf b3 1 + bitIf b4 1 + bitIf b6 1 + bitIf b7 1 + bitIf b8 1 +
    bitIf b9 1

/-- Number of foreground cells among the 8 neighbours of `(cy,cx)` in `src`,
for `1 ≤ cy` and `1 ≤ cx`. -/
def neighbourCount (src : Mat T) (bgColor : T) (cy cx : Nat) : Nat :=
  count8 (src.fg bgColor (cy - 1) (cx - 1)) (src.fg bgColor (cy - 1) cx)
    (src.fg bgColor (cy - 1) (cx + 1)) (src.fg bgColor cy (cx - 1))
    (src.fg bgColor cy (cx + 1)) (src.fg bgColor (cy + 1) (cx - 1))
    (src.fg bgColor (cy + 1) cx) (src.fg bgColor (cy + 1) (cx + 1))

/-- The part of the row loop body of `_thin` before the column loop: the
window the column loop is entered with. -/
def rowStart (src : Mat T) (bgColor : T) (py cy ny : Nat) (dst : Mat T)
    (pixelsRemoved : Nat) : Except Fault (Window T) := do
  let cx := 0
  let nx := 1
  let index := 0
  let p2 ← src.read py cx
  let index := orIf index p2 bgColor 0x02
  let p3 ← src.read py nx
  let index := orIf index p3 bgColor 0x04
  let p5 ← src.read cy cx
  let index := orIf index p5 bgColor 0x100
  let p6 ← src.read cy nx
  let index := orIf index p6 bgColor 0x08
  let p8 ← src.read ny cx
  let index := orIf index p8 bgColor 0x20
  let p9 ← src.read ny nx
  let index := orIf index p9 bgColor 0x10
  pure { index := index, p5 := p5, p6 := p6, dst := dst, pixelsRemoved := pixelsRemoved }

/-- The part of the column loop body of `_thin` before `if(p5!=bgColor)`: the
value of `index` at the table lookup, and the new `p6`. -/
def slideWindow (src : Mat T) (bgColor : T) (py cy ny nx : Nat) (w : Window T) :
    Except Fault (Nat × T) := do
  let index := ((w.index &&& 0x106) >>> 1) ||| ((w.index &&& 0x030) <<< 1)
  let p3 ← src.read py nx
  let index := orIf index p3 bgColor 0x04
  let p6 ← src.read cy nx
  let index := orIf index p6 bgColor 0x08
  let p9 ← src.read ny nx
  let index := orIf index p9 bgColor 0x10
  pure (index, p6)

/-- The part of the column loop body of `_thin` from `if(p5!=bgColor)` on, for
the values `index`, `p5` and `p6` it is reached with. -/
def colTail (rflags : List Nat) (rmask : Nat) (bgColor : T) (cy cx : Nat) (index : Nat)
    (p5 p6 : T) (dst : Mat T) (pixelsRemoved : Nat) : Except Fault (Window T) :=
  if p5 ≠ bgColor then do
    let flag ← lookup rflags index
    if flag &&& rmask ≠ 0 then
      pure { index := index ||| 0x100, p5 := p5, p6 := p6, dst := dst,
             pixelsRemoved := pixelsRemoved + 1 }
    else
      let dst ← dst.write cy cx p5
      pure { index := index ||| 0x100, p5 := p5, p6 := p6, dst := dst,
             pixelsRemoved := pixelsRemoved }
  else
    pure { index := index, p5 := p5, p6 := p6, dst := dst, pixelsRemoved := pixelsRemoved }

/-- The foreground of `m` is a plus-shaped cross centred at `(cy,cx)` with arms
one cell wide: the centre and its four side neighbours are foreground, every
foreground cell lies in row `cy` or in column `cx`, and the next cell towards
the centre of every foreground cell is foreground. -/
def isPlusAt (m : Mat T) (bgColor : T) (cy cx : Nat) : Bool :=
  decide (1 ≤ cy ∧ 1 ≤ cx) && m.fg bgColor cy cx && m.fg bgColor (cy - 1) cx &&
  m.fg bgColor (cy + 1) cx && m.fg bgColor cy (cx - 1) && m.fg bgColor cy (cx + 1) &&
  (fgCells m bgColor).all fun c =>
    (decide (c.1 = cy) || decide (c.2 = cx)) &&
    (decide (c.1 ≤ cy) || m.fg bgColor (c.1 - 1) c.2) &&
    (decide (cy ≤ c.1) || m.fg bgColor (c.1 + 1) c.2) &&
    (decide (c.2 ≤ cx) || m.fg bgColor c.1 (c.2 - 1)) &&
    (decide (cx ≤ c.2) || m.fg bgColor c.1 (c.2 + 1))

/-- The foreground of `m` is a plus-shaped cross with arms one cell wide. -/
def isPlus (m : Mat T) (bgColor : T) : Bool :=
  (List.range m.rows).any fun cy => (List.range m.cols).any fun cx => isPlusAt m bgColor cy cx

/-- A 3x3 padded buffer whose only interior cell is foreground: the working
buffer of `zs_thinning` for a 1x1 image that holds one pixel. -/
def dot3 : Mat Nat := Mat.ofRows 3 3 0 [[0, 0, 0], [0, 1, 0], [0, 0, 0]]

/-- A 3x3 buffer of background. -/
def blank3 : Mat Nat := Mat.ofRows 3 3 0 [[0, 0, 0], [0, 0, 0], [0, 0, 0]]

/-- A 5x5 grid that holds a plus-shaped cross. -/
def plus5 : Mat Nat := Mat.ofRows 5 5 0
  [[0, 0, 1, 0, 0], [0, 0, 1, 0, 0], [1, 1, 1, 1, 1], [0, 0, 1, 0, 0], [0, 0, 1, 0, 0]]

example : isPlus plus5 0 = true := by decide
example : isPlus block5 0 = false := by decide

@[simp] theorem ok_bind {α β : Type} (a : α) (f : α → Except Fault β) :
    (Except.ok a >>= f) = f a := rfl

@[simp] theorem error_bind {α β : Type} (e : Fault) (f : α → Except Fault β) :
    ((Except.error e : Except Fault α) >>= f) = Except.error e := rfl

theorem okAnd_elim {α : Type} (r : Except Fault α) (p : α → Bool) (h : okAnd r p = true) :
    ∃ a, r = .ok a ∧ p a = true := by
  cases r with
  | ok a => exact ⟨a, rfl, h⟩
  | error e => simp [okAnd] at h

theorem read_ok (m : Mat T) {y x : Nat} (hy : y < m.rows) (hx : x < m.cols) :
    m.read y x = .ok (m.cell y x) := by
  simp [Mat.read, hy, hx]

theorem orIf_eq (index : Nat) (v bg : T) (bit : Nat) :
    orIf index v bg bit = index ||| bitIf (decide (v ≠ bg)) bit := by
  unfold orIf bitIf
  by_cases h : v = bg <;> simp [h]

theorem slide_eq (j : Nat) (b1 b2 b4 b7 b8 n3 n6 n9 : Bool)
    (hj : j &&& 0x136 = head5 b1 b2 b4 b7 b8) :
    ((j &&& 0x106) >>> 1 ||| (j &&& 0x030) <<< 1) ||| bitIf n3 0x04 ||| bitIf n6 0x08 ||| bitIf n9 0x10
      = code8 b1 b2 n3 b4 n6 b7 b8 n9 := by
  have h1 : j &&& 0x106 = (j &&& 0x136) &&& 0x106 := by
    rw [Nat.land_assoc]; rfl
  have h2 : j &&& 0x030 = (j &&& 0x136) &&& 0x030 := by
    rw [Nat.land_assoc]; rfl
  rw [h1, h2, hj]
  cases b1 <;> cases b2 <;> cases b4 <;> cases b7 <;> cases b8 <;> cases n3 <;> cases n6 <;> cases n9 <;> rfl

theorem code8_lt (b1 b2 b3 b4 b6 b7 b8 b9 : Bool) : code8 b1 b2 b3 b4 b6 b7 b8 b9 < 256 := by
  cases b1 <;> cases b2 <;> cases b3 <;> cases b4 <;> cases b6 <;> cases b7 <;> cases b8 <;> cases b9 <;> decide

theorem head_next (b1 b2 b3 b4 b5 b6 b7 b8 b9 : Bool) :
    (code8 b1 b2 b3 b4 b6 b7 b8 b9 ||| bitIf b5 0x100) &&& 0x136 = head5 b2 b3 b5 b8 b9 := by
  cases b1 <;> cases b2 <;> cases b3 <;> cases b4 <;> cases b5 <;> cases b6 <;> cases b7 <;> cases b8 <;> cases b9 <;> rfl

theorem lookup_ok (rflags : List Nat) (h : rflags.length = 256) {i : Nat} (hi : i < 256) :
    lookup rflags i = .ok (flagAt rflags i) := by
  unfold lookup flagAt
  have : i < rflags.length := by omega
  simp [List.get?_eq_get, this, List.getD_eq_getElem?_getD]

theorem colStep_ok (src : Mat T) (rflags : List Nat) (rmask : Nat) (bgColor : T)
    (py cx : Nat) (w : Window T) (hfl : rflags.length = 256)
    (hy : py + 2 < src.rows) (hx : cx + 1 < src.cols)
    (hdr : w.dst.rows = src.rows) (hdc : w.dst.cols = src.cols)
    (hp6 : w.p6 = src.cell (py + 1) cx)
    (hidx : headInv src bgColor (py + 1) cx w.index) :
    ∃ w', colStep src rflags rmask bgColor py (py + 1) (py + 2) cx (cx + 1) w = .ok w' ∧
      w'.p6 = src.cell (py + 1) (cx + 1) ∧
      headInv src bgColor (py + 1) (cx + 1) w'.index ∧
      w'.dst.rows = src.rows ∧ w'.dst.cols = src.cols ∧
      (∀ y x, w'.dst.cell y x =
        if y = py + 1 ∧ x = cx ∧ keptAt src rflags rmask bgColor (py + 1) cx = true
        then src.cell (py + 1) cx else w.dst.cell y x) ∧
      w'.pixelsRemoved = w.pixelsRemoved +
        (if removedAt src rflags rmask bgColor (py + 1) cx = true then 1 else 0) := by
  have hcode : ((w.index &&& 0x106) >>> 1 ||| (w.index &&& 0x030) <<< 1) |||
      bitIf (src.fg bgColor py (cx + 1)) 0x04 ||| bitIf (src.fg bgColor (py + 1) (cx + 1)) 0x08 |||
      bitIf (src.fg bgColor (py + 2) (cx + 1)) 0x10 = neighbourCode src bgColor (py + 1) cx := by
    have := slide_eq w.index _ _ _ _ _ (src.fg bgColor py (cx + 1))
      (src.fg bgColor (py + 1) (cx + 1)) (src.fg bgColor (py + 2) (cx + 1)) hidx
    simpa [neighbourCode] using this
  have hlt : neighbourCode src bgColor (py + 1) cx < 256 := code8_lt _ _ _ _ _ _ _ _
  unfold colStep
  rw [read_ok src (by omega) hx, read_ok src (by omega) hx, read_ok src (by omega) hx]
  simp only [ok_bind, orIf_eq]
  have hfg : ∀ y x, decide (src.cell y x ≠ bgColor) = src.fg bgColor y x := fun _ _ => rfl
  simp only [hfg, hcode, hp6]
  have hnext : ∀ b5 : Bool, b5 = src.fg bgColor (py + 1) cx →
      headInv src bgColor (py + 1) (cx + 1) (neighbourCode src bgColor (py + 1) cx ||| bitIf b5 0x100) := by
    intro b5 hb5
    unfold headInv neighbourCode
    rw [head_next, hb5]
    simp only [Nat.add_sub_cancel]
  by_cases h5 : src.cell (py + 1) cx = bgColor
  · have hf : src.fg bgColor (py + 1) cx = false := by simp [Mat.fg, h5]
    rw [if_neg (not_not.mpr h5)]
    refine ⟨_, rfl, rfl, ?_, hdr, hdc, ?_, ?_⟩
    · simpa [bitIf] using hnext false hf.symm
    · intro y x; simp [keptAt, hf]
    · simp [removedAt, hf]
  · have hf : src.fg bgColor (py + 1) cx = true := by simp [Mat.fg, h5]
    rw [if_pos h5, lookup_ok rflags hfl hlt]
    simp only [ok_bind]
    by_cases hflag : flagAt rflags (neighbourCode src bgColor (py + 1) cx) &&& rmask = 0
    · have hw : w.dst.write (py + 1) cx (src.cell (py + 1) cx) = .ok
          { w.dst with cell := fun y' x' => if y' = py + 1 ∧ x' = cx then src.cell (py + 1) cx
                                             else w.dst.cell y' x' } := by
        unfold Mat.write
        rw [if_pos ⟨by omega, by omega⟩]
      rw [if_neg (by simpa using hflag), hw]
      refine ⟨_, rfl, rfl, ?_, hdr, hdc, ?_, ?_⟩
      · simpa [bitIf] using hnext true hf.symm
      · intro y x; simp [keptAt, hf, hflag]
      · simp [removedAt, hf, hflag]
    · rw [if_pos hflag]
      refine ⟨_, rfl, rfl, ?_, hdr, hdc, ?_, ?_⟩
      · simpa [bitIf] using hnext true hf.symm
      · intro y x; simp [keptAt, hf, hflag]
      · simp [removedAt, hf, hflag]

theorem colLoop_ok (src : Mat T) (rflags : List Nat) (rmask : Nat) (bgColor : T)
    (py : Nat) (hfl : rflags.length = 256) (hy : py + 2 < src.rows) :
    ∀ (n cx : Nat) (w : Window T), cx + n < src.cols →
      w.dst.rows = src.rows → w.dst.cols = src.cols →
      w.p6 = src.cell (py + 1) cx → headInv src bgColor (py + 1) cx w.index →
      ∃ w', colLoop src rflags rmask bgColor py (py + 1) (py + 2) n cx w = .ok w' ∧
        w'.dst.rows = src.rows ∧ w'.dst.cols = src.cols ∧
        (∀ y x, w'.dst.cell y x =
          if y = py + 1 ∧ cx ≤ x ∧ x < cx + n ∧ keptAt src rflags rmask bgColor (py + 1) x = true
          then src.cell y x else w.dst.cell y x) ∧
        w'.pixelsRemoved = w.pixelsRemoved +
          rowRemoved src rflags rmask bgColor (py + 1) cx (cx + n) := by
  intro n
  induction n with
  | zero =>
    intro cx w _ hdr hdc _ _
    refine ⟨w, rfl, hdr, hdc, ?_, ?_⟩
    · intro y x
      rw [if_neg (by omega)]
    · simp [rowRemoved]
  | succ n ih =>
    intro cx w hx hdr hdc hp6 hidx
    obtain ⟨w1, hstep, hp61, hidx1, hdr1, hdc1, hcell1, hrem1⟩ :=
      colStep_ok src rflags rmask bgColor py cx w hfl hy (by omega) hdr hdc hp6 hidx
    obtain ⟨w2, hloop, hdr2, hdc2, hcell2, hrem2⟩ :=
      ih (cx + 1) w1 (by omega) hdr1 hdc1 hp61 hidx1
    refine ⟨w2, ?_, hdr2, hdc2, ?_, ?_⟩
    · show (colStep src rflags rmask bgColor py (py + 1) (py + 2) cx (cx + 1) w >>= _) = _
      rw [hstep]
      exact hloop
    · intro y x
      rw [hcell2, hcell1]
      by_cases hyx : y = py + 1 ∧ x = cx
      · obtain ⟨rfl, rfl⟩ := hyx
        by_cases hk : keptAt src rflags rmask bgColor (py + 1) x = true
        · simp [hk]
        · simp [hk]
      · by_cases hk : keptAt src rflags rmask bgColor (py + 1) x = true
        · by_cases h1 : y = py + 1 ∧ cx + 1 ≤ x ∧ x < cx + 1 + n
          · rw [if_pos ⟨h1.1, h1.2.1, h1.2.2, hk⟩, if_pos ⟨h1.1, by omega, by omega, hk⟩]
          · rw [if_neg (fun h => h1 ⟨h.1, h.2.1, h.2.2.1⟩), if_neg (fun h => hyx ⟨h.1, h.2.1⟩),
              if_neg (fun h => h1 ⟨h.1, by omega, by omega⟩)]
        · rw [if_neg (fun h => hk h.2.2.2), if_neg (fun h => hyx ⟨h.1, h.2.1⟩),
            if_neg (fun h => hk h.2.2.2)]
    · rw [hrem2, hrem1, rowRemoved, rowRemoved,
        Finset.sum_eq_sum_Ico_succ_bot (by omega : cx < cx + (n + 1))]
      have : cx + 1 + n = cx + (n + 1) := by omega
      rw [this, Nat.add_assoc]

theorem head_init (b2 b3 b5 b6 b8 b9 : Bool) :
    (0 ||| bitIf b2 0x02 ||| bitIf b3 0x04 ||| bitIf b5 0x100 ||| bitIf b6 0x08 ||| bitIf b8 0x20 |||
      bitIf b9 0x10) &&& 0x136 = head5 b2 b3 b5 b8 b9 := by
  cases b2 <;> cases b3 <;> cases b5 <;> cases b6 <;> cases b8 <;> cases b9 <;> rfl

theorem rowStep_ok (src : Mat T) (rflags : List Nat) (rmask : Nat) (bgColor : T)
    (py : Nat) (dst : Mat T) (pixelsRemoved : Nat) (hfl : rflags.length = 256)
    (hy : py + 2 < src.rows) (hc : 2 ≤ src.cols)
    (hdr : dst.rows = src.rows) (hdc : dst.cols = src.cols) :
    ∃ dst', rowStep src rflags rmask bgColor py (py + 1) (py + 2) dst pixelsRemoved =
        .ok (dst', pixelsRemoved +
          rowRemoved src rflags rmask bgColor (py + 1) 1 (1 + (src.cols - 3))) ∧
      dst'.rows = src.rows ∧ dst'.cols = src.cols ∧
      ∀ y x, dst'.cell y x =
        if y = py + 1 ∧ 1 ≤ x ∧ x + 2 < src.cols ∧ keptAt src rflags rmask bgColor (py + 1) x = true
        then src.cell y x else dst.cell y x := by
  unfold rowStep
  dsimp only
  rw [read_ok src (by omega) (by omega), read_ok src (by omega) (by omega),
    read_ok src (by omega) (by omega), read_ok src (by omega) (by omega),
    read_ok src (by omega) (by omega), read_ok src (by omega) (by omega)]
  simp only [ok_bind, orIf_eq]
  obtain ⟨w', hloop, hdr', hdc', hcell, hrem⟩ :=
    colLoop_ok src rflags rmask bgColor py hfl hy (src.cols - 1 - 2) (0 + 1)
      { index := 0 ||| bitIf (decide (src.cell py 0 ≠ bgColor)) 0x02 |||
          bitIf (decide (src.cell py 1 ≠ bgColor)) 0x04 |||
          bitIf (decide (src.cell (py + 1) 0 ≠ bgColor)) 0x100 |||
          bitIf (decide (src.cell (py + 1) 1 ≠ bgColor)) 0x08 |||
          bitIf (decide (src.cell (py + 2) 0 ≠ bgColor)) 0x20 |||
          bitIf (decide (src.cell (py + 2) 1 ≠ bgColor)) 0x10,
        p5 := src.cell (py + 1) 0, p6 := src.cell (py + 1) 1, dst := dst,
        pixelsRemoved := pixelsRemoved }
      (by omega) hdr hdc rfl (by
        unfold headInv
        rw [head_init]
        rfl)
  rw [hloop]
  refine ⟨w'.dst, ?_, hdr', hdc', ?_⟩
  · rw [ok_bind, hrem]
    have : 0 + 1 + (src.cols - 1 - 2) = 1 + (src.cols - 3) := by omega
    simp only [this]
    rfl
  · intro y x
    rw [hcell]
    have hiff : (y = py + 1 ∧ 0 + 1 ≤ x ∧ x < 0 + 1 + (src.cols - 1 - 2) ∧
        keptAt src rflags rmask bgColor (py + 1) x = true) ↔
        (y = py + 1 ∧ 1 ≤ x ∧ x + 2 < src.cols ∧
          keptAt src rflags rmask bgColor (py + 1) x = true) := by
      constructor
      · rintro ⟨h1, h2, h3, h4⟩
        exact ⟨h1, by omega, by omega, h4⟩
      · rintro ⟨h1, h2, h3, h4⟩
        exact ⟨h1, by omega, by omega, h4⟩
    simp only [hiff]

theorem rowLoop_ok (src : Mat T) (rflags : List Nat) (rmask : Nat) (bgColor : T)
    (hfl : rflags.length = 256) (hc : 2 ≤ src.cols) :
    ∀ (n py : Nat) (dst : Mat T) (pixelsRemoved : Nat), (n = 0 ∨ py + n + 1 < src.rows) →
      dst.rows = src.rows → dst.cols = src.cols →
      ∃ dst', rowLoop src rflags rmask bgColor n py dst pixelsRemoved =
          .ok (dst', pixelsRemoved + ∑ i in Finset.Ico py (py + n),
            rowRemoved src rflags rmask bgColor (i + 1) 1 (1 + (src.cols - 3))) ∧
        dst'.rows = src.rows ∧ dst'.cols = src.cols ∧
        ∀ y x, dst'.cell y x =
          if py + 1 ≤ y ∧ y < py + 1 + n ∧ 1 ≤ x ∧ x + 2 < src.cols ∧
              keptAt src rflags rmask bgColor y x = true
          then src.cell y x else dst.cell y x := by
  intro n
  induction n with
  | zero =>
    intro py dst pixelsRemoved _ hdr hdc
    refine ⟨dst, ?_, hdr, hdc, ?_⟩
    · simp [rowLoop, pure, Except.pure]
    · intro y x
      rw [if_neg (by omega)]
  | succ n ih =>
    intro py dst pixelsRemoved hn hdr hdc
    obtain ⟨dst1, hstep, hdr1, hdc1, hcell1⟩ :=
      rowStep_ok src rflags rmask bgColor py dst pixelsRemoved hfl (by omega) hc hdr hdc
    obtain ⟨dst2, hloop, hdr2, hdc2, hcell2⟩ :=
      ih (py + 1) dst1 (pixelsRemoved +
        rowRemoved src rflags rmask bgColor (py + 1) 1 (1 + (src.cols - 3))) (by omega) hdr1 hdc1
    refine ⟨dst2, ?_, hdr2, hdc2, ?_⟩
    · show (rowStep src rflags rmask bgColor py (py + 1) (py + 2) dst pixelsRemoved >>= _) = _
      rw [hstep, ok_bind]
      show rowLoop src rflags rmask bgColor n (py + 1) dst1 _ = _
      rw [hloop, Finset.sum_eq_sum_Ico_succ_bot (by omega : py < py + (n + 1))]
      have : py + 1 + n = py + (n + 1) := by omega
      rw [this, Nat.add_assoc]
    · intro y x
      rw [hcell2, hcell1]
      by_cases hk : 1 ≤ x ∧ x + 2 < src.cols ∧ keptAt src rflags rmask bgColor y x = true
      · by_cases h1 : y = py + 1
        · subst h1
          rw [if_neg (by omega), if_pos ⟨rfl, hk.1, hk.2.1, hk.2.2⟩,
            if_pos ⟨by omega, by omega, hk.1, hk.2.1, hk.2.2⟩]
        · by_cases h2 : py + 1 + 1 ≤ y ∧ y < py + 1 + 1 + n
          · rw [if_pos ⟨h2.1, h2.2, hk.1, hk.2.1, hk.2.2⟩,
              if_pos ⟨by omega, by omega, hk.1, hk.2.1, hk.2.2⟩]
          · rw [if_neg (fun h => h2 ⟨h.1, h.2.1⟩), if_neg (fun h => h1 h.1),
              if_neg (fun h => h2 ⟨by omega, by omega⟩)]
      · rw [if_neg (fun h => hk ⟨h.2.2.1, h.2.2.2.1, h.2.2.2.2⟩),
          if_neg (fun h => hk ⟨h.2.1, h.2.2.1, by rw [h.1]; exact h.2.2.2⟩),
          if_neg (fun h => hk ⟨h.2.2.1, h.2.2.2.1, h.2.2.2.2⟩)]

set_option maxRecDepth 4096 in
theorem rflagsOf_length (stage : Nat) : (rflagsOf stage).length = 256 := by
  unfold rflagsOf
  split <;> rfl

/-- A pass on equally sized buffers with at least two columns succeeds, and its
results have the closed forms `thinMat` and `thinRemoved`. -/
theorem thin_ok (src dst : Mat T) (stage pass : Nat) (bgColor : T)
    (hdr : dst.rows = src.rows) (hdc : dst.cols = src.cols) (hc : 2 ≤ src.cols) :
    _thin src dst stage pass bgColor =
      .ok (thinMat src (rflagsOf stage) (rmaskOf pass) bgColor,
           thinRemoved src (rflagsOf stage) (rmaskOf pass) bgColor) := by
  unfold _thin
  obtain ⟨dst', hloop, hdr', hdc', hcell⟩ :=
    rowLoop_ok src (rflagsOf stage) (rmaskOf pass) bgColor (rflagsOf_length stage) hc
      (src.rows - 1 - 2) 0 (dst.setTo bgColor) 0 (by omega) hdr hdc
  dsimp only
  rw [hloop]
  have hm : dst' = thinMat src (rflagsOf stage) (rmaskOf pass) bgColor := by
    cases dst' with
    | mk r c f =>
      simp only at hdr' hdc' hcell
      subst hdr' hdc'
      unfold thinMat
      congr 1
      funext y x
      rw [hcell]
      unfold thinCell Mat.setTo
      have hiff : (0 + 1 ≤ y ∧ y < 0 + 1 + (src.rows - 1 - 2) ∧ 1 ≤ x ∧ x + 2 < src.cols ∧
          keptAt src (rflagsOf stage) (rmaskOf pass) bgColor y x = true) ↔
          (1 ≤ y ∧ y + 2 < src.rows ∧ 1 ≤ x ∧ x + 2 < src.cols ∧
            keptAt src (rflagsOf stage) (rmaskOf pass) bgColor y x = true) := by
        constructor
        · rintro ⟨h1, h2, h3⟩
          exact ⟨by omega, by omega, h3⟩
        · rintro ⟨h1, h2, h3⟩
          exact ⟨by omega, by omega, h3⟩
      simp only [hiff]
  rw [hm, thinRemoved, Nat.zero_add]

/-! ## Counting -/

theorem sum_map_range (f : Nat → Nat) (n : Nat) :
    ((List.range n).map f).sum = ∑ i in Finset.range n, f i := by
  induction n with
  | zero => simp
  | succ n ih => simp [List.range_succ, Finset.sum_range_succ, ih]

theorem length_filter_range (p : Nat → Bool) (n : Nat) :
    ((List.range n).filter p).length = ∑ i in Finset.range n, if p i = true then 1 else 0 := by
  induction n with
  | zero => simp
  | succ n ih =>
    rw [List.range_succ, List.filter_append, List.length_append, ih, Finset.sum_range_succ]
    by_cases h : p n = true <;> simp [h]

theorem countCells_eq_sum (rows cols : Nat) (p : Nat → Nat → Bool) :
    countCells rows cols p =
      ∑ y in Finset.range rows, ∑ x in Finset.range cols, if p y x = true then 1 else 0 := by
  unfold countCells
  rw [sum_map_range]
  apply Finset.sum_congr rfl
  intro y _
  exact length_filter_range (p y) cols

theorem sum_Ico_eq_sum_range (g : Nat → Nat) (a b N : Nat) (h : ∀ x, a ≤ x → x < b → x < N) :
    ∑ x in Finset.Ico a b, g x = ∑ x in Finset.range N, if a ≤ x ∧ x < b then g x else 0 := by
  rw [← Finset.sum_filter]
  apply Finset.sum_congr _ (fun _ _ => rfl)
  ext x
  simp only [Finset.mem_Ico, Finset.mem_filter, Finset.mem_range]
  constructor
  · rintro ⟨h1, h2⟩
    exact ⟨h x h1 h2, h1, h2⟩
  · rintro ⟨_, h1, h2⟩
    exact ⟨h1, h2⟩

theorem thinRemoved_eq_sum (src : Mat T) (rflags : List Nat) (rmask : Nat) (bgColor : T) :
    thinRemoved src rflags rmask bgColor =
      ∑ y in Finset.range src.rows, ∑ x in Finset.range src.cols,
        if (scanned src y x && removedAt src rflags rmask bgColor y x) = true then 1 else 0 := by
  unfold thinRemoved
  rw [Finset.sum_Ico_add' (fun y => rowRemoved src rflags rmask bgColor y 1 (1 + (src.cols - 3))),
    sum_Ico_eq_sum_range _ _ _ src.rows (by intro x h1 h2; omega)]
  apply Finset.sum_congr rfl
  intro y _
  by_cases hy : 0 + 1 ≤ y ∧ y < 0 + (src.rows - 1 - 2) + 1
  · rw [if_pos hy, rowRemoved, sum_Ico_eq_sum_range _ _ _ src.cols (by intro x h1 h2; omega)]
    apply Finset.sum_congr rfl
    intro x _
    by_cases hx : 1 ≤ x ∧ x < 1 + (src.cols - 3)
    · have hs : scanned src y x = true := by
        simp only [scanned, decide_eq_true_eq]; omega
      rw [if_pos hx, hs, Bool.true_and]
    · have hs : scanned src y x = false := by
        simp only [scanned, decide_eq_false_iff_not]; omega
      rw [if_neg hx, hs, Bool.false_and]
      simp
  · rw [if_neg hy]
    symm
    apply Finset.sum_eq_zero
    intro x _
    have hs : scanned src y x = false := by
      simp only [scanned, decide_eq_false_iff_not]; omega
    rw [hs, Bool.false_and]
    simp

theorem thinCell_cases (src : Mat T) (rflags : List Nat) (rmask : Nat) (bgColor : T) (y x : Nat) :
    (scanned src y x = true ∧ keptAt src rflags rmask bgColor y x = true ∧
        thinCell src rflags rmask bgColor y x = src.cell y x ∧ src.cell y x ≠ bgColor ∧
        removedAt src rflags rmask bgColor y x = false) ∨
    (thinCell src rflags rmask bgColor y x = bgColor ∧
      (scanned src y x = true → keptAt src rflags rmask bgColor y x = false)) := by
  by_cases h : 1 ≤ y ∧ y + 2 < src.rows ∧ 1 ≤ x ∧ x + 2 < src.cols ∧
      keptAt src rflags rmask bgColor y x = true
  · left
    have hk := h.2.2.2.2
    have hk2 := hk
    simp only [keptAt, Mat.fg, Bool.and_eq_true, decide_eq_true_eq] at hk2
    refine ⟨?_, hk, ?_, hk2.1, ?_⟩
    · simp only [scanned, decide_eq_true_eq]; omega
    · unfold thinCell; rw [if_pos h]
    · simp [removedAt, hk2.2]
  · right
    refine ⟨by unfold thinCell; rw [if_neg h], ?_⟩
    intro hs
    simp only [scanned, decide_eq_true_eq] at hs
    by_contra hk
    exact h ⟨hs.1, hs.2.1, hs.2.2.1, hs.2.2.2, by simpa using hk⟩

theorem removedAt_fg {src : Mat T} {rflags : List Nat} {rmask : Nat} {bgColor : T} {y x : Nat}
    (h : removedAt src rflags rmask bgColor y x = true) : src.fg bgColor y x = true := by
  simp only [removedAt, Bool.and_eq_true] at h
  exact h.1

/-- A pass never increases the number of foreground cells, and every removed
pixel lowers it by one. -/
theorem thin_fgCount (src : Mat T) (rflags : List Nat) (rmask : Nat) (bgColor : T) :
    fgCount (thinMat src rflags rmask bgColor) bgColor + thinRemoved src rflags rmask bgColor
      ≤ fgCount src bgColor := by
  unfold fgCount
  rw [countCells_eq_sum, countCells_eq_sum, thinRemoved_eq_sum]
  show ∑ y in Finset.range src.rows, ∑ x in Finset.range src.cols, _ + _ ≤ _
  rw [← Finset.sum_add_distrib]
  apply Finset.sum_le_sum
  intro y _
  rw [← Finset.sum_add_distrib]
  apply Finset.sum_le_sum
  intro x _
  show (if Mat.fg (thinMat src rflags rmask bgColor) bgColor y x = true then 1 else 0) + _ ≤ _
  have hfg : Mat.fg (thinMat src rflags rmask bgColor) bgColor y x
      = decide (thinCell src rflags rmask bgColor y x ≠ bgColor) := rfl
  rw [hfg]
  rcases thinCell_cases src rflags rmask bgColor y x with ⟨_, _, h3, h4, h5⟩ | ⟨h1, _⟩
  · have : src.fg bgColor y x = true := by simp [Mat.fg, h4]
    rw [h5, h3, this]
    simp [h4]
  · rw [h1]
    by_cases hr : removedAt src rflags rmask bgColor y x = true
    · rw [removedAt_fg hr]
      simp only [ne_eq, not_true_eq_false, decide_False, Bool.false_eq_true, if_false, if_true,
        Nat.zero_add]
      split <;> omega
    · simp [hr]

theorem thinMat_shrinks (src : Mat T) (rflags : List Nat) (rmask : Nat) (bgColor : T) :
    Shrinks bgColor src (thinMat src rflags rmask bgColor) := by
  refine ⟨rfl, rfl, ?_⟩
  intro y x
  rcases thinCell_cases src rflags rmask bgColor y x with ⟨_, _, h3, _, _⟩ | ⟨h1, _⟩
  · exact Or.inl h3
  · exact Or.inr h1

theorem shrinks_refl (bgColor : T) (a : Mat T) : Shrinks bgColor a a :=
  ⟨rfl, rfl, fun _ _ => Or.inl rfl⟩

theorem shrinks_trans {bgColor : T} {a b c : Mat T} (h1 : Shrinks bgColor a b)
    (h2 : Shrinks bgColor b c) : Shrinks bgColor a c := by
  refine ⟨h2.1.trans h1.1, h2.2.1.trans h1.2.1, ?_⟩
  intro y x
  rcases h2.2.2 y x with h | h
  · rcases h1.2.2 y x with h' | h'
    · exact Or.inl (h.trans h')
    · exact Or.inr (h.trans h')
  · exact Or.inr h

/-! ## The controller -/

theorem sweep_ok (stage : Nat) (bgColor : T) (s : Work T) (hg : s.Good) :
    sweep stage bgColor s = .ok (sweepWork stage bgColor s, sweepRemoved stage bgColor s) := by
  unfold sweep
  rw [thin_ok s.work0 s.work1 stage s.pass bgColor hg.1 hg.2.1 hg.2.2]
  simp only [ok_bind]
  rw [thin_ok (thinMat s.work0 (rflagsOf stage) (rmaskOf s.pass) bgColor) s.work0 stage
    (s.pass + 1) bgColor rfl rfl hg.2.2]
  rfl

theorem thinMat_rows (src : Mat T) (rflags : List Nat) (rmask : Nat) (bgColor : T) :
    (thinMat src rflags rmask bgColor).rows = src.rows := rfl

theorem thinMat_cols (src : Mat T) (rflags : List Nat) (rmask : Nat) (bgColor : T) :
    (thinMat src rflags rmask bgColor).cols = src.cols := rfl

theorem sweepWork_good (stage : Nat) (bgColor : T) (s : Work T) (hg : s.Good) :
    (sweepWork stage bgColor s).Good := by
  unfold Work.Good sweepWork
  simp only [thinMat_rows, thinMat_cols]
  exact ⟨trivial, trivial, hg.2.2⟩

theorem sweep_fgCount (stage : Nat) (bgColor : T) (s : Work T) :
    fgCount (sweepWork stage bgColor s).work0 bgColor + sweepRemoved stage bgColor s
      ≤ fgCount s.work0 bgColor := by
  have h1 := thin_fgCount s.work0 (rflagsOf stage) (rmaskOf s.pass) bgColor
  have h2 := thin_fgCount (thinMat s.work0 (rflagsOf stage) (rmaskOf s.pass) bgColor)
    (rflagsOf stage) (rmaskOf (s.pass + 1)) bgColor
  unfold sweepRemoved
  show fgCount (thinMat (thinMat s.work0 (rflagsOf stage) (rmaskOf s.pass) bgColor)
    (rflagsOf stage) (rmaskOf (s.pass + 1)) bgColor) bgColor + _ ≤ _
  omega

theorem stageLoop_succ (stage : Nat) (bgColor : T) (fuel : Nat) (s : Work T) (hg : s.Good) :
    stageLoop stage bgColor (fuel + 1) s =
      if sweepRemoved stage bgColor s > 0 then stageLoop stage bgColor fuel (sweepWork stage bgColor s)
      else .ok (sweepWork stage bgColor s) := by
  show (sweep stage bgColor s >>= _) = _
  rw [sweep_ok stage bgColor s hg]
  rfl

/-- With more fuel than `work0` has foreground cells the loop of a stage ends. -/
theorem stageLoop_ok (stage : Nat) (bgColor : T) :
    ∀ (fuel : Nat) (s : Work T), s.Good → fgCount s.work0 bgColor < fuel →
      ∃ s', stageLoop stage bgColor fuel s = .ok s' ∧ StageSteps stage bgColor s s' := by
  intro fuel
  induction fuel with
  | zero => intro s _ h; omega
  | succ fuel ih =>
    intro s hg hf
    rw [stageLoop_succ stage bgColor fuel s hg]
    by_cases hr : sweepRemoved stage bgColor s > 0
    · rw [if_pos hr]
      have := sweep_fgCount stage bgColor s
      obtain ⟨s', h1, h2⟩ := ih (sweepWork stage bgColor s) (sweepWork_good stage bgColor s hg)
        (by omega)
      exact ⟨s', h1, StageSteps.more s s' hr h2⟩
    · rw [if_neg hr]
      exact ⟨_, rfl, StageSteps.last s (by omega)⟩

theorem stageSteps_unique {stage : Nat} {bgColor : T} {s a b : Work T}
    (ha : StageSteps stage bgColor s a) (hb : StageSteps stage bgColor s b) : a = b := by
  induction ha with
  | last s h0 =>
    cases hb with
    | last _ _ => rfl
    | more _ _ hpos _ => omega
  | more s s' hpos _ ih =>
    cases hb with
    | last _ h0 => omega
    | more _ _ _ hb' => exact ih hb'

theorem stageSteps_good {stage : Nat} {bgColor : T} {s s' : Work T}
    (h : StageSteps stage bgColor s s') (hg : s.Good) : s'.Good := by
  induction h with
  | last s _ => exact sweepWork_good stage bgColor s hg
  | more s s' _ _ ih => exact ih (sweepWork_good stage bgColor s hg)

theorem sweepWork_shrinks (stage : Nat) (bgColor : T) (s : Work T) :
    Shrinks bgColor s.work0 (sweepWork stage bgColor s).work0 :=
  shrinks_trans (thinMat_shrinks _ _ _ _) (thinMat_shrinks _ _ _ _)

theorem stageSteps_shrinks {stage : Nat} {bgColor : T} {s s' : Work T}
    (h : StageSteps stage bgColor s s') : Shrinks bgColor s.work0 s'.work0 := by
  induction h with
  | last s _ => exact sweepWork_shrinks stage bgColor s
  | more s s' _ _ ih => exact shrinks_trans (sweepWork_shrinks stage bgColor s) ih

/-- Every loop executes a positive even number of passes. -/
theorem stageSteps_pass {stage : Nat} {bgColor : T} {s s' : Work T}
    (h : StageSteps stage bgColor s s') : ∃ k, 1 ≤ k ∧ s'.pass = s.pass + 2 * k := by
  induction h with
  | last s _ => exact ⟨1, le_refl 1, rfl⟩
  | more s s' _ _ ih =>
    obtain ⟨k, hk, hp⟩ := ih
    refine ⟨k + 1, by omega, ?_⟩
    rw [hp]
    show s.pass + 2 + 2 * k = _
    omega

theorem totalRemoved_append (a b : List PassLog) :
    totalRemoved (a ++ b) = totalRemoved a + totalRemoved b := by
  simp [totalRemoved]

/-- The passes of a loop are recorded after those already made, all with the
stage of the loop, and what they remove is missing from `work0` afterwards. -/
theorem stageSteps_log {stage : Nat} {bgColor : T} {s s' : Work T}
    (h : StageSteps stage bgColor s s') :
    ∃ l, s'.log = s.log ++ l ∧ (∀ e ∈ l, e.stage = stage) ∧
      totalRemoved l + fgCount s'.work0 bgColor ≤ fgCount s.work0 bgColor := by
  induction h with
  | last s _ =>
    refine ⟨_, rfl, ?_, ?_⟩
    · intro e he
      simp only [List.mem_cons, List.mem_singleton, List.not_mem_nil, or_false] at he
      rcases he with rfl | rfl <;> rfl
    · have := sweep_fgCount stage bgColor s
      simp only [totalRemoved, List.map_cons, List.map_nil, List.sum_cons, List.sum_nil]
      unfold sweepRemoved at this
      omega
  | more s s' _ _ ih =>
    obtain ⟨l, hl, hst, hsum⟩ := ih
    refine ⟨_ ++ l, by rw [hl]; exact List.append_assoc _ _ _, ?_, ?_⟩
    · intro e he
      rcases List.mem_append.mp he with he | he
      · simp only [List.mem_cons, List.mem_singleton, List.not_mem_nil, or_false] at he
        rcases he with rfl | rfl <;> rfl
      · exact hst e he
    · have := sweep_fgCount stage bgColor s
      rw [totalRemoved_append]
      simp only [totalRemoved, List.map_cons, List.map_nil, List.sum_cons, List.sum_nil] at hsum ⊢
      unfold sweepRemoved at this
      omega

theorem sum_range_pad (f g : Nat → Nat) (n : Nat) (h0 : g 0 = 0) (hn : g (n + 1) = 0)
    (hmid : ∀ i, i < n → g (i + 1) = f i) :
    ∑ i in Finset.range (n + 2), g i = ∑ i in Finset.range n, f i := by
  rw [Finset.sum_range_succ, Finset.sum_range_succ', h0, hn, Nat.add_zero]
  exact Finset.sum_congr rfl (fun i hi => hmid i (Finset.mem_range.mp hi))

theorem padded_fg (src : Mat T) (bgColor : T) (y x : Nat) :
    Mat.fg (padded src bgColor) bgColor y x =
      (decide (1 ≤ y ∧ y ≤ src.rows ∧ 1 ≤ x ∧ x ≤ src.cols) && src.fg bgColor (y - 1) (x - 1)) := by
  unfold Mat.fg padded
  by_cases h : 1 ≤ y ∧ y ≤ src.rows ∧ 1 ≤ x ∧ x ≤ src.cols
  · simp only [if_pos h, decide_eq_true h, Bool.true_and]
  · simp only [if_neg h, decide_eq_false h, Bool.false_and]
    simp

theorem fgCount_padded (src : Mat T) (bgColor : T) :
    fgCount (padded src bgColor) bgColor = fgCount src bgColor := by
  unfold fgCount
  rw [countCells_eq_sum, countCells_eq_sum]
  show ∑ y in Finset.range (src.rows + 2), ∑ x in Finset.range (src.cols + 2), _ = _
  apply sum_range_pad
  · apply Finset.sum_eq_zero
    intro x _
    rw [padded_fg, decide_eq_false (by omega)]
    rfl
  · apply Finset.sum_eq_zero
    intro x _
    rw [padded_fg, decide_eq_false (by omega)]
    rfl
  · intro y hy
    apply sum_range_pad
    · rw [padded_fg, decide_eq_false (by omega)]
      rfl
    · rw [padded_fg, decide_eq_false (by omega)]
      rfl
    · intro x hx
      rw [padded_fg, decide_eq_true (by omega)]
      rfl

theorem initWork_good (src : Mat T) (bgColor : T) : (initWork src bgColor).Good :=
  ⟨rfl, rfl, by show 2 ≤ src.cols + 2; omega⟩

/-- With more fuel than the source has foreground cells both loops end. -/
theorem zsRun_ok (fuel : Nat) (src : Mat T) (bgColor : T) (hf : fgCount src bgColor < fuel) :
    ∃ s0 s1, zsRun fuel src bgColor = .ok s1 ∧
      StageSteps 0 bgColor (initWork src bgColor) s0 ∧ StageSteps 1 bgColor s0 s1 := by
  obtain ⟨s0, h0, hs0⟩ := stageLoop_ok 0 bgColor fuel (initWork src bgColor)
    (initWork_good src bgColor) (by
      show fgCount (padded src bgColor) bgColor < fuel
      rw [fgCount_padded]; exact hf)
  have hg0 := stageSteps_good hs0 (initWork_good src bgColor)
  have hle : fgCount s0.work0 bgColor ≤ fgCount src bgColor := by
    obtain ⟨l, _, _, hsum⟩ := stageSteps_log hs0
    have : fgCount (initWork src bgColor).work0 bgColor = fgCount src bgColor :=
      fgCount_padded src bgColor
    omega
  obtain ⟨s1, h1, hs1⟩ := stageLoop_ok 1 bgColor fuel s0 hg0 (by omega)
  refine ⟨s0, s1, ?_, hs0, hs1⟩
  show (stageLoop 0 bgColor fuel (initWork src bgColor) >>= _) = _
  rw [h0]
  exact h1

/-! ## Whole runs of `zs_thinning` -/

/-- The run of `zs_thinning` succeeds; its results are those of the state the
second loop stops in. -/
theorem zs_thinning_ok (src : Mat T) (bgColor : T) :
    ∃ s0 s1, StageSteps 0 bgColor (initWork src bgColor) s0 ∧ StageSteps 1 bgColor s0 s1 ∧
      zs_thinning src bgColor = .ok (cropped s1.work0 src.rows src.cols, s1.pass) ∧
      zsLog src bgColor = .ok s1.log := by
  obtain ⟨s0, s1, hrun, h0, h1⟩ := zsRun_ok (fgCount src bgColor + 1) src bgColor (by omega)
  refine ⟨s0, s1, h0, h1, ?_, ?_⟩
  · show (zsRun (fgCount src bgColor + 1) src bgColor >>= _) = _
    rw [hrun]; rfl
  · show (zsRun (fgCount src bgColor + 1) src bgColor >>= _) = _
    rw [hrun]; rfl

theorem zs_shrinks {src : Mat T} {bgColor : T} {s0 s1 : Work T}
    (h0 : StageSteps 0 bgColor (initWork src bgColor) s0) (h1 : StageSteps 1 bgColor s0 s1)
    (y x : Nat) (hy : y < src.rows) (hx : x < src.cols) :
    (cropped s1.work0 src.rows src.cols).cell y x = src.cell y x ∨
      (cropped s1.work0 src.rows src.cols).cell y x = bgColor := by
  have hs := shrinks_trans (stageSteps_shrinks h0) (stageSteps_shrinks h1)
  have hp : (initWork src bgColor).work0.cell (y + 1) (x + 1) = src.cell y x := by
    show (if 1 ≤ y + 1 ∧ y + 1 ≤ src.rows ∧ 1 ≤ x + 1 ∧ x + 1 ≤ src.cols
      then src.cell (y + 1 - 1) (x + 1 - 1) else bgColor) = _
    rw [if_pos (by omega)]
    simp only [Nat.add_sub_cancel]
  show s1.work0.cell (y + 1) (x + 1) = _ ∨ s1.work0.cell (y + 1) (x + 1) = _
  rw [← hp]
  exact hs.2.2 (y + 1) (x + 1)

/-- C1 (foreground-only shrink): `zs_thinning` returns a grid of the dimensions
of the source in which every cell that holds the background value in the
source holds the background value. -/
theorem zs_thinning_background_stays (src : Mat T) (bgColor : T) :
    ∃ out n, zs_thinning src bgColor = .ok (out, n) ∧
      out.rows = src.rows ∧ out.cols = src.cols ∧
      ∀ y x, y < src.rows → x < src.cols → src.cell y x = bgColor → out.cell y x = bgColor := by
  obtain ⟨s0, s1, h0, h1, hz, _⟩ := zs_thinning_ok src bgColor
  refine ⟨_, _, hz, rfl, rfl, ?_⟩
  intro y x hy hx hbg
  rcases zs_shrinks h0 h1 y x hy hx with h | h
  · rw [h, hbg]
  · exact h

/-- C5 (pass count floor and parity): for every source grid and background
value `zs_thinning` returns an even pass count of at least 4. -/
theorem zs_thinning_pass_even_ge_four (src : Mat T) (bgColor : T) :
    ∃ out n, zs_thinning src bgColor = .ok (out, n) ∧ n % 2 = 0 ∧ 4 ≤ n := by
  obtain ⟨s0, s1, h0, h1, hz, _⟩ := zs_thinning_ok src bgColor
  obtain ⟨k0, hk0, hp0⟩ := stageSteps_pass h0
  obtain ⟨k1, hk1, hp1⟩ := stageSteps_pass h1
  have hinit : (initWork src bgColor).pass = 0 := rfl
  refine ⟨_, _, hz, ?_, ?_⟩ <;> omega

theorem zsRun_fuel (fuel : Nat) (src : Mat T) (bgColor : T) (hf : fgCount src bgColor < fuel) :
    zsRun fuel src bgColor = zsRun (fgCount src bgColor + 1) src bgColor := by
  obtain ⟨a0, a1, ha, ha0, ha1⟩ := zsRun_ok fuel src bgColor hf
  obtain ⟨b0, b1, hb, hb0, hb1⟩ := zsRun_ok (fgCount src bgColor + 1) src bgColor (by omega)
  have h0 : a0 = b0 := stageSteps_unique ha0 hb0
  subst h0
  have h1 : a1 = b1 := stageSteps_unique ha1 hb1
  rw [ha, hb, h1]

/-- C6 (termination): `zs_thinning` returns a result for every source grid and
background value, the result does not depend on the fuel once it exceeds the
number of foreground cells, and one body of either `do ... while` loop lowers
the number of foreground cells of `work0` by at least the removal count the
loop condition tests, so strictly when that count is positive. -/
theorem zs_thinning_terminates (src : Mat T) (bgColor : T) :
    (∃ out n, zs_thinning src bgColor = .ok (out, n)) ∧
    (∀ fuel, fgCount src bgColor < fuel →
      zsRun fuel src bgColor = zsRun (fgCount src bgColor + 1) src bgColor) ∧
    (∀ (stage : Nat) (s : Work T), s.Good →
      ∃ s' pixelsRemoved, sweep stage bgColor s = .ok (s', pixelsRemoved) ∧
        fgCount s'.work0 bgColor + pixelsRemoved ≤ fgCount s.work0 bgColor ∧
        (0 < pixelsRemoved → fgCount s'.work0 bgColor < fgCount s.work0 bgColor)) := by
  refine ⟨?_, fun fuel hf => zsRun_fuel fuel src bgColor hf, ?_⟩
  · obtain ⟨s0, s1, _, _, hz, _⟩ := zs_thinning_ok src bgColor
    exact ⟨_, _, hz⟩
  · intro stage s hg
    have h := sweep_fgCount stage bgColor s
    exact ⟨_, _, sweep_ok stage bgColor s hg, h, fun hr => by omega⟩

theorem sweepWork_log_length (stage : Nat) (bgColor : T) (s : Work T)
    (hl : s.log.length = s.pass) :
    (sweepWork stage bgColor s).log.length = (sweepWork stage bgColor s).pass := by
  show (s.log ++ [_, _]).length = s.pass + 2
  rw [List.length_append, hl]
  rfl

/-- Every executed pass is recorded: the record is as long as the pass counter. -/
theorem stageSteps_log_length {stage : Nat} {bgColor : T} {s s' : Work T}
    (h : StageSteps stage bgColor s s') (hl : s.log.length = s.pass) :
    s'.log.length = s'.pass := by
  induction h with
  | last s _ => exact sweepWork_log_length stage bgColor s hl
  | more s s' _ _ ih => exact ih (sweepWork_log_length stage bgColor s hl)

/-- C7 (termination bound): `zs_thinning` records one removal count per
executed pass, and the removal counts of all passes of one call sum to at most
the number of foreground cells of the source. -/
theorem zs_thinning_removed_le_fgCount (src : Mat T) (bgColor : T) :
    ∃ out n log, zs_thinning src bgColor = .ok (out, n) ∧ zsLog src bgColor = .ok log ∧
      log.length = n ∧ totalRemoved log ≤ fgCount src bgColor := by
  obtain ⟨s0, s1, h0, h1, hz, hl⟩ := zs_thinning_ok src bgColor
  obtain ⟨l0, hl0, _, hsum0⟩ := stageSteps_log h0
  obtain ⟨l1, hl1, _, hsum1⟩ := stageSteps_log h1
  have hlen : s1.log.length = s1.pass :=
    stageSteps_log_length h1 (stageSteps_log_length h0 rfl)
  refine ⟨_, _, _, hz, hl, hlen, ?_⟩
  have hinit : (initWork src bgColor).log = [] := rfl
  have hfg : fgCount (initWork src bgColor).work0 bgColor = fgCount src bgColor :=
    fgCount_padded src bgColor
  rw [hl1, hl0, hinit, List.nil_append, totalRemoved_append]
  omega

/-! ## Fixed points of the passes -/

theorem mat_eq (a b : Mat T) (hr : a.rows = b.rows) (hc : a.cols = b.cols)
    (hcell : ∀ y x, a.cell y x = b.cell y x) : a = b := by
  cases a with
  | mk ar ac af =>
    cases b with
    | mk br bc bf =>
      simp only at hr hc hcell
      subst hr hc
      have : af = bf := funext fun y => funext fun x => hcell y x
      rw [this]

theorem thinMat_framed (m : Mat T) (rflags : List Nat) (rmask : Nat) (bgColor : T) :
    Framed bgColor (thinMat m rflags rmask bgColor) := by
  intro y x hs
  have hs' : scanned m y x = false := hs
  rcases thinCell_cases m rflags rmask bgColor y x with ⟨h1, _⟩ | ⟨h1, _⟩
  · rw [hs'] at h1; exact absurd h1 (by simp)
  · exact h1

theorem removed_none {m : Mat T} {rflags : List Nat} {rmask : Nat} {bgColor : T}
    (h : thinRemoved m rflags rmask bgColor = 0) (y x : Nat) (hs : scanned m y x = true) :
    removedAt m rflags rmask bgColor y x = false := by
  rw [thinRemoved_eq_sum] at h
  have hs' := hs
  simp only [scanned, decide_eq_true_eq] at hs'
  have hy := (Finset.sum_eq_zero_iff.mp h) y (Finset.mem_range.mpr (by omega))
  have hx := (Finset.sum_eq_zero_iff.mp hy) x (Finset.mem_range.mpr (by omega))
  rw [hs, Bool.true_and] at hx
  by_contra hne
  rw [if_pos (by simpa using hne)] at hx
  exact absurd hx (by decide)

/-- A pass that removes nothing from a framed buffer reproduces it. -/
theorem thin_fixed {m : Mat T} {rflags : List Nat} {rmask : Nat} {bgColor : T}
    (hf : Framed bgColor m) (h : thinRemoved m rflags rmask bgColor = 0) :
    thinMat m rflags rmask bgColor = m := by
  refine mat_eq (thinMat m rflags rmask bgColor) m rfl rfl ?_
  intro y x
  show thinCell m rflags rmask bgColor y x = m.cell y x
  rcases thinCell_cases m rflags rmask bgColor y x with ⟨_, _, h3, _, _⟩ | ⟨h1, h2⟩
  · exact h3
  · rw [h1]
    by_cases hs : scanned m y x = true
    · have hk := h2 hs
      have hr := removed_none h y x hs
      by_contra hne
      have hfg : m.fg bgColor y x = true := by
        simp only [Mat.fg, decide_eq_true_eq]
        exact fun e => hne e.symm
      simp only [keptAt, hfg, Bool.true_and, decide_eq_false_iff_not] at hk
      simp only [removedAt, hfg, Bool.true_and, decide_eq_false_iff_not] at hr
      exact hr hk
    · exact (hf y x (by simpa using hs)).symm

theorem rmaskOf_cases (pass : Nat) :
    (rmaskOf pass = 1 ∧ rmaskOf (pass + 1) = 2) ∨ (rmaskOf pass = 2 ∧ rmaskOf (pass + 1) = 1) := by
  unfold rmaskOf
  rw [Nat.and_one_is_mod, Nat.and_one_is_mod]
  rcases Nat.mod_two_eq_zero_or_one pass with h | h
  · left
    have : (pass + 1) % 2 = 1 := by omega
    rw [h, this]
    exact ⟨rfl, rfl⟩
  · right
    have : (pass + 1) % 2 = 0 := by omega
    rw [h, this]
    exact ⟨rfl, rfl⟩

theorem rmaskOf_eq (pass : Nat) : rmaskOf pass = 1 ∨ rmaskOf pass = 2 := by
  rcases rmaskOf_cases pass with h | h
  · exact Or.inl h.1
  · exact Or.inr h.1

/-- A loop body that removes nothing from a framed `work0` leaves it as it is,
and then neither pass of the stage removes anything from it. -/
theorem sweep_settles {stage : Nat} {bgColor : T} {s : Work T} (hf : Framed bgColor s.work0)
    (h : sweepRemoved stage bgColor s = 0) :
    (sweepWork stage bgColor s).work0 = s.work0 ∧ Settled stage bgColor s.work0 := by
  unfold sweepRemoved at h
  have h1 : thinRemoved s.work0 (rflagsOf stage) (rmaskOf s.pass) bgColor = 0 := by omega
  have e1 := thin_fixed hf h1
  rw [e1] at h
  have h2 : thinRemoved s.work0 (rflagsOf stage) (rmaskOf (s.pass + 1)) bgColor = 0 := by omega
  have e2 := thin_fixed hf h2
  constructor
  · show thinMat (thinMat s.work0 (rflagsOf stage) (rmaskOf s.pass) bgColor) (rflagsOf stage)
      (rmaskOf (s.pass + 1)) bgColor = s.work0
    rw [e1, e2]
  · intro pass
    rcases rmaskOf_cases s.pass with ⟨a, b⟩ | ⟨a, b⟩ <;>
      rcases rmaskOf_eq pass with c | c <;> rw [c] <;> first
        | (rw [a] at h1; exact h1) | (rw [b] at h2; exact h2)

theorem sweepWork_framed (stage : Nat) (bgColor : T) (s : Work T) :
    Framed bgColor (sweepWork stage bgColor s).work0 :=
  thinMat_framed _ _ _ _

theorem stageSteps_settled {stage : Nat} {bgColor : T} {s s' : Work T}
    (h : StageSteps stage bgColor s s') (hf : Framed bgColor s.work0) :
    Framed bgColor s'.work0 ∧ Settled stage bgColor s'.work0 := by
  induction h with
  | last s h0 =>
    obtain ⟨e, hs⟩ := sweep_settles hf h0
    rw [e]
    exact ⟨hf, hs⟩
  | more s s' _ _ ih => exact ih (sweepWork_framed stage bgColor s)

theorem settled_sweep (stage : Nat) (bgColor : T) (s : Work T) (hf : Framed bgColor s.work0)
    (hs : Settled stage bgColor s.work0) :
    sweepRemoved stage bgColor s = 0 ∧ (sweepWork stage bgColor s).work0 = s.work0 := by
  have e1 := thin_fixed hf (hs s.pass)
  have h0 : sweepRemoved stage bgColor s = 0 := by
    unfold sweepRemoved
    rw [e1, hs s.pass, hs (s.pass + 1)]
  exact ⟨h0, (sweep_settles hf h0).1⟩

theorem stageSteps_log_head {stage : Nat} {bgColor : T} {s s' : Work T}
    (h : StageSteps stage bgColor s s') :
    ∃ a b rest, s'.log = s.log ++ a :: b :: rest ∧ a.stage = stage ∧ b.stage = stage ∧
      a.pixelsRemoved + b.pixelsRemoved = sweepRemoved stage bgColor s := by
  cases h with
  | last _ _ =>
    exact ⟨⟨stage, s.pass, thinRemoved s.work0 (rflagsOf stage) (rmaskOf s.pass) bgColor⟩,
      ⟨stage, s.pass + 1,
        thinRemoved (thinMat s.work0 (rflagsOf stage) (rmaskOf s.pass) bgColor)
          (rflagsOf stage) (rmaskOf (s.pass + 1)) bgColor⟩, [], rfl, rfl, rfl, rfl⟩
  | more _ _ _ h' =>
    obtain ⟨l, hl, _, _⟩ := stageSteps_log h'
    refine ⟨⟨stage, s.pass, thinRemoved s.work0 (rflagsOf stage) (rmaskOf s.pass) bgColor⟩,
      ⟨stage, s.pass + 1,
        thinRemoved (thinMat s.work0 (rflagsOf stage) (rmaskOf s.pass) bgColor)
          (rflagsOf stage) (rmaskOf (s.pass + 1)) bgColor⟩, l, ?_, rfl, rfl, rfl⟩
    rw [hl]
    show (s.log ++ [_, _]) ++ l = _
    rw [List.append_assoc]
    rfl

theorem padded_framed (src : Mat T) (bgColor : T)
    (hrow : ∀ x, x < src.cols → src.cell (src.rows - 1) x = bgColor)
    (hcol : ∀ y, y < src.rows → src.cell y (src.cols - 1) = bgColor) :
    Framed bgColor (padded src bgColor) := by
  intro y x hs
  have hs' : ¬ (1 ≤ y ∧ y + 2 < src.rows + 2 ∧ 1 ≤ x ∧ x + 2 < src.cols + 2) := by
    simpa [scanned, padded] using hs
  show (if 1 ≤ y ∧ y ≤ src.rows ∧ 1 ≤ x ∧ x ≤ src.cols then src.cell (y - 1) (x - 1)
    else bgColor) = bgColor
  split
  · rename_i hin
    by_cases hy : y = src.rows
    · rw [hy]
      exact hrow _ (by omega)
    · have hx : x = src.cols := by omega
      rw [hx]
      exact hcol _ (by omega)
  · rfl

theorem padded_cropped {bgColor : T} {w : Mat T} {rows cols : Nat} (hf : Framed bgColor w)
    (hr : w.rows = rows + 2) (hc : w.cols = cols + 2) :
    padded (cropped w rows cols) bgColor = w := by
  refine mat_eq (padded (cropped w rows cols) bgColor) w hr.symm hc.symm ?_
  intro y x
  show (if 1 ≤ y ∧ y ≤ rows ∧ 1 ≤ x ∧ x ≤ cols then w.cell (y - 1 + 1) (x - 1 + 1)
    else bgColor) = w.cell y x
  split
  · rename_i hin
    rw [Nat.sub_add_cancel hin.1, Nat.sub_add_cancel hin.2.2.1]
  · rename_i hout
    symm
    apply hf
    simp only [scanned, decide_eq_false_iff_not]
    omega

/-! ## Runs in which no pass removes a pixel -/

theorem sweepWork_log_quiet {stage : Nat} {bgColor : T} {s : Work T}
    (h : sweepRemoved stage bgColor s = 0) (hs : ∀ e ∈ s.log, e.pixelsRemoved = 0) :
    ∀ e ∈ (sweepWork stage bgColor s).log, e.pixelsRemoved = 0 := by
  unfold sweepRemoved at h
  intro e he
  have he' : e ∈ s.log ++
      [⟨stage, s.pass, thinRemoved s.work0 (rflagsOf stage) (rmaskOf s.pass) bgColor⟩,
       ⟨stage, s.pass + 1,
        thinRemoved (thinMat s.work0 (rflagsOf stage) (rmaskOf s.pass) bgColor)
          (rflagsOf stage) (rmaskOf (s.pass + 1)) bgColor⟩] := he
  rcases List.mem_append.mp he' with h1 | h1
  · exact hs e h1
  · simp only [List.mem_cons, List.mem_singleton, List.not_mem_nil, or_false] at h1
    rcases h1 with rfl | rfl
    · show thinRemoved s.work0 (rflagsOf stage) (rmaskOf s.pass) bgColor = 0
      omega
    · show thinRemoved (thinMat s.work0 (rflagsOf stage) (rmaskOf s.pass) bgColor)
        (rflagsOf stage) (rmaskOf (s.pass + 1)) bgColor = 0
      omega

/-- When the first body of each loop removes nothing, the run makes 4 passes,
none of which removes a pixel. -/
theorem quiet_run {src : Mat T} {bgColor : T} {s0 s1 : Work T}
    (h0 : StageSteps 0 bgColor (initWork src bgColor) s0) (h1 : StageSteps 1 bgColor s0 s1)
    (hq0 : sweepRemoved 0 bgColor (initWork src bgColor) = 0)
    (hq1 : sweepRemoved 1 bgColor (sweepWork 0 bgColor (initWork src bgColor)) = 0) :
    s0 = sweepWork 0 bgColor (initWork src bgColor) ∧ s1 = sweepWork 1 bgColor s0 ∧
      s1.pass = 4 ∧ s1.log.length = 4 ∧ ∀ e ∈ s1.log, e.pixelsRemoved = 0 := by
  have e0 : s0 = sweepWork 0 bgColor (initWork src bgColor) :=
    stageSteps_unique h0 (StageSteps.last _ hq0)
  rw [← e0] at hq1
  have e1 : s1 = sweepWork 1 bgColor s0 := stageSteps_unique h1 (StageSteps.last _ hq1)
  have hl0 : ∀ e ∈ s0.log, e.pixelsRemoved = 0 := by
    rw [e0]
    exact sweepWork_log_quiet hq0 (fun e he => absurd he (List.not_mem_nil e))
  have hl1 : ∀ e ∈ s1.log, e.pixelsRemoved = 0 := by
    rw [e1]
    exact sweepWork_log_quiet hq1 hl0
  refine ⟨e0, e1, ?_, ?_, hl1⟩
  · rw [e1, e0]; rfl
  · rw [e1, e0]; rfl

theorem same_refl (a : Mat T) : Mat.Same a a :=
  ⟨rfl, rfl, fun _ _ _ _ => rfl⟩

/-! ## Degenerate inputs -/

theorem inert_removed {bgColor : T} {m : Mat T} (h : Inert bgColor m) (rflags : List Nat)
    (rmask : Nat) : thinRemoved m rflags rmask bgColor = 0 := by
  rw [thinRemoved_eq_sum]
  apply Finset.sum_eq_zero
  intro y _
  apply Finset.sum_eq_zero
  intro x _
  have hf : (scanned m y x && removedAt m rflags rmask bgColor y x) = false := by
    rcases h with h | h | h
    · have : scanned m y x = false := by
        simp only [scanned, decide_eq_false_iff_not]; omega
      rw [this, Bool.false_and]
    · have : scanned m y x = false := by
        simp only [scanned, decide_eq_false_iff_not]; omega
      rw [this, Bool.false_and]
    · have : removedAt m rflags rmask bgColor y x = false := by
        simp [removedAt, Mat.fg, h y x]
      rw [this, Bool.and_false]
  rw [hf]
  rfl

theorem inert_thinMat {bgColor : T} {m : Mat T} (h : Inert bgColor m) (rflags : List Nat)
    (rmask : Nat) : Inert bgColor (thinMat m rflags rmask bgColor) := by
  rcases h with h | h | h
  · exact Or.inl h
  · exact Or.inr (Or.inl h)
  · refine Or.inr (Or.inr ?_)
    intro y x
    rcases (thinMat_shrinks m rflags rmask bgColor).2.2 y x with h' | h'
    · rw [h', h y x]
    · exact h'

theorem inert_sweep {bgColor : T} {s : Work T} (h : Inert bgColor s.work0) (stage : Nat) :
    sweepRemoved stage bgColor s = 0 ∧ Inert bgColor (sweepWork stage bgColor s).work0 := by
  have h1 := inert_thinMat h (rflagsOf stage) (rmaskOf s.pass)
  refine ⟨?_, inert_thinMat h1 (rflagsOf stage) (rmaskOf (s.pass + 1))⟩
  unfold sweepRemoved
  rw [inert_removed h, inert_removed h1]

theorem padded_inert (src : Mat T) (bgColor : T)
    (h : src.rows < 2 ∨ src.cols < 2 ∨
      ∀ y x, y < src.rows → x < src.cols → src.cell y x = bgColor) :
    Inert bgColor (padded src bgColor) := by
  rcases h with h | h | h
  · exact Or.inl (by show src.rows + 2 ≤ 3; omega)
  · exact Or.inr (Or.inl (by show src.cols + 2 ≤ 3; omega))
  · refine Or.inr (Or.inr ?_)
    intro y x
    show (if 1 ≤ y ∧ y ≤ src.rows ∧ 1 ≤ x ∧ x ≤ src.cols then src.cell (y - 1) (x - 1)
      else bgColor) = bgColor
    split
    · exact h _ _ (by omega) (by omega)
    · rfl

/-- C9 (degenerate inputs, amended): on a grid with fewer than 2 rows or fewer
than 2 columns, and on an all-background grid, `zs_thinning` executes 4 passes,
each with removal count zero, and returns 4; on an all-background grid the
returned grid equals the source. -/
theorem zs_thinning_degenerate (src : Mat T) (bgColor : T)
    (h : src.rows < 2 ∨ src.cols < 2 ∨
      ∀ y x, y < src.rows → x < src.cols → src.cell y x = bgColor) :
    ∃ out log, zs_thinning src bgColor = .ok (out, 4) ∧ zsLog src bgColor = .ok log ∧
      log.length = 4 ∧ (∀ e ∈ log, e.pixelsRemoved = 0) ∧
      ((∀ y x, y < src.rows → x < src.cols → src.cell y x = bgColor) → Mat.Same out src) := by
  obtain ⟨s0, s1, h0, h1, hz, hl⟩ := zs_thinning_ok src bgColor
  have hi0 : Inert bgColor (initWork src bgColor).work0 := padded_inert src bgColor h
  have hr0 := inert_sweep hi0 0
  have hr1 := inert_sweep hr0.2 1
  obtain ⟨_, _, hpass, hlen, hquiet⟩ := quiet_run h0 h1 hr0.1 hr1.1
  rw [hpass] at hz
  refine ⟨_, _, hz, hl, hlen, hquiet, ?_⟩
  intro hbg
  refine ⟨rfl, rfl, ?_⟩
  intro y hy x hx
  rcases zs_shrinks h0 h1 y x hy hx with h' | h'
  · exact h'
  · rw [h']
    exact (hbg y x hy hx).symm

/-! ## Idempotence -/

/-- C3 (idempotence, amended): when the last row and the last column of the
source are background and no stage-1 pass of `zs_thinning` on the source
removes a pixel, `zs_thinning` applied to its own output returns 4 and the same
grid, and none of its 4 passes removes a pixel. -/
theorem zs_thinning_idempotent_when_stage1_idle (src : Mat T) (bgColor : T)
    (log : List PassLog)
    (hrow : ∀ x, x < src.cols → src.cell (src.rows - 1) x = bgColor)
    (hcol : ∀ y, y < src.rows → src.cell y (src.cols - 1) = bgColor)
    (hlog : zsLog src bgColor = .ok log)
    (hidle : ∀ e ∈ log, e.stage = 1 → e.pixelsRemoved = 0) :
    ∃ out n, zs_thinning src bgColor = .ok (out, n) ∧
      ∃ out2 log2, zs_thinning out bgColor = .ok (out2, 4) ∧ Mat.Same out2 out ∧
        zsLog out bgColor = .ok log2 ∧ log2.length = 4 ∧ ∀ e ∈ log2, e.pixelsRemoved = 0 := by
  obtain ⟨s0, s1, h0, h1, hz, hl⟩ := zs_thinning_ok src bgColor
  have hlogeq : log = s1.log := by
    rw [hl] at hlog
    exact (Except.ok.inj hlog).symm
  obtain ⟨hfs0, hset0⟩ := stageSteps_settled h0 (padded_framed src bgColor hrow hcol)
  obtain ⟨a, b, rest, hlg, ha, hb, hab⟩ := stageSteps_log_head h1
  have hr1 : sweepRemoved 1 bgColor s0 = 0 := by
    have hma : a ∈ log := by rw [hlogeq, hlg]; simp
    have hmb : b ∈ log := by rw [hlogeq, hlg]; simp
    have := hidle a hma ha
    have := hidle b hmb hb
    omega
  have e1 : s1 = sweepWork 1 bgColor s0 := stageSteps_unique h1 (StageSteps.last _ hr1)
  obtain ⟨ew, hset1⟩ := sweep_settles hfs0 hr1
  have hw1 : s1.work0 = s0.work0 := by rw [e1]; exact ew
  have hdim := stageSteps_shrinks h0
  have hrows : s0.work0.rows = src.rows + 2 := hdim.1
  have hcols : s0.work0.cols = src.cols + 2 := hdim.2.1
  rw [hw1] at hz
  refine ⟨_, _, hz, ?_⟩
  have hpad : padded (cropped s0.work0 src.rows src.cols) bgColor = s0.work0 :=
    padded_cropped hfs0 hrows hcols
  obtain ⟨t0, t1, g0, g1, gz, gl⟩ := zs_thinning_ok (cropped s0.work0 src.rows src.cols) bgColor
  have hi : (initWork (cropped s0.work0 src.rows src.cols) bgColor).work0 = s0.work0 := hpad
  have q0 := settled_sweep 0 bgColor (initWork (cropped s0.work0 src.rows src.cols) bgColor)
    (by rw [hi]; exact hfs0) (by rw [hi]; exact hset0)
  have hw0 : (sweepWork 0 bgColor
      (initWork (cropped s0.work0 src.rows src.cols) bgColor)).work0 = s0.work0 := by
    rw [q0.2, hi]
  have q1 := settled_sweep 1 bgColor
    (sweepWork 0 bgColor (initWork (cropped s0.work0 src.rows src.cols) bgColor))
    (by rw [hw0]; exact hfs0) (by rw [hw0]; exact hset1)
  obtain ⟨f0, f1, hp, hlen, hquiet⟩ := quiet_run g0 g1 q0.1 q1.1
  have hwt : t1.work0 = s0.work0 := by
    rw [f1, f0, q1.2, hw0]
  rw [hp, hwt] at gz
  exact ⟨_, _, gz, same_refl _, gl, hlen, hquiet⟩

/-! ## The claims on concrete grids -/

/-- C4 (topology preservation), the code at the failing input `twoCorners`:
the source has two 8-connected components, one of them the single pixel in the
last row and column; `zs_thinning` returns a grid with one component. -/
theorem zs_thinning_loses_component :
    ∃ out n, zs_thinning twoCorners 0 = .ok (out, n) ∧
      out.toRows = [[1, 0, 0], [0, 0, 0], [0, 0, 0]] ∧
      components twoCorners 0 = 2 ∧ components out 0 = 1 := by
  obtain ⟨⟨out, n⟩, h, hp⟩ := okAnd_elim (zs_thinning twoCorners 0)
    (fun r => decide (r.1.toRows = [[1, 0, 0], [0, 0, 0], [0, 0, 0]] ∧
      components twoCorners 0 = 2 ∧ components r.1 0 = 1)) (by decide)
  exact ⟨out, n, h, of_decide_eq_true hp⟩

/-- C8 (already-thin input), the code at the failing input `diagonal3`: every
pass reports zero removed pixels, yet the returned grid lacks the end of the
diagonal in the last row and column. -/
theorem zs_thinning_shortens_diagonal :
    ∃ out n log, zs_thinning diagonal3 0 = .ok (out, n) ∧ zsLog diagonal3 0 = .ok log ∧
      out.toRows = [[1, 0, 0], [0, 1, 0], [0, 0, 0]] ∧ ¬ Mat.Same out diagonal3 ∧
      ∀ e ∈ log, e.pixelsRemoved = 0 := by
  obtain ⟨⟨out, n⟩, h, hp⟩ := okAnd_elim (zs_thinning diagonal3 0)
    (fun r => decide (r.1.toRows = [[1, 0, 0], [0, 1, 0], [0, 0, 0]] ∧
      ¬ Mat.Same r.1 diagonal3)) (by decide)
  obtain ⟨log, hl, hq⟩ := okAnd_elim (zsLog diagonal3 0)
    (fun l => decide (∀ e ∈ l, e.pixelsRemoved = 0)) (by decide)
  exact ⟨out, n, log, h, hl, (of_decide_eq_true hp).1, (of_decide_eq_true hp).2,
    of_decide_eq_true hq⟩

/-- C10 (canonical shape): for the filled 5x5 block of value 255 on background
0 `zs_thinning` returns a grid with at least one foreground cell, whose
foreground is one 8-connected component, and in which no foreground cell has
more than 2 foreground cells among its 8 neighbours. -/
theorem zs_thinning_block5_skeleton :
    ∃ out n, zs_thinning block5 0 = .ok (out, n) ∧
      0 < fgCount out 0 ∧ components out 0 = 1 ∧
      ∀ y, y < out.rows → ∀ x, x < out.cols → out.cell y x ≠ 0 → fgNeighbours out 0 y x ≤ 2 := by
  obtain ⟨⟨out, n⟩, h, hp⟩ := okAnd_elim (zs_thinning block5 0)
    (fun r => decide (0 < fgCount r.1 0 ∧ components r.1 0 = 1 ∧
      ∀ y, y < r.1.rows → ∀ x, x < r.1.cols → r.1.cell y x ≠ 0 → fgNeighbours r.1 0 y x ≤ 2))
    (by decide)
  exact ⟨out, n, h, of_decide_eq_true hp⟩

/-- C3, witness: the filled 5x5 block meets the hypotheses of the amended
idempotence theorem, so thinning its skeleton again changes nothing. -/
theorem zs_thinning_idempotent_witness :
    zsLog block5 0 = .ok block5Log ∧
    ∃ out n, zs_thinning block5 0 = .ok (out, n) ∧
      ∃ out2 log2, zs_thinning out 0 = .ok (out2, 4) ∧ Mat.Same out2 out ∧
        zsLog out 0 = .ok log2 ∧ log2.length = 4 ∧ ∀ e ∈ log2, e.pixelsRemoved = 0 :=
  ⟨by rfl, zs_thinning_idempotent_when_stage1_idle block5 0 block5Log (by decide) (by decide) (by rfl)
    (by decide)⟩

/-- C3, counterexample: on the grid `hook`, whose last row and column are
background, the second application of `zs_thinning` removes a pixel in its
first pass, returns 6 and a grid that differs from the first output. -/
theorem zs_thinning_not_idempotent :
    ∃ out n out2 n2 log2, zs_thinning hook 0 = .ok (out, n) ∧
      zs_thinning out 0 = .ok (out2, n2) ∧ zsLog out 0 = .ok log2 ∧
      out.toRows = [[0, 0, 0, 1, 0], [0, 0, 1, 0, 0], [1, 1, 1, 0, 0], [0, 0, 0, 0, 0]] ∧
      out2.toRows = [[0, 0, 0, 1, 0], [0, 0, 1, 0, 0], [1, 1, 0, 0, 0], [0, 0, 0, 0, 0]] ∧
      ¬ Mat.Same out2 out ∧ n2 = 6 ∧ (log2.map fun e => e.pixelsRemoved) = [1, 0, 0, 0, 0, 0] := by
  obtain ⟨⟨out, n⟩, h, hp⟩ := okAnd_elim (zs_thinning hook 0)
    (fun r => decide (r.1.toRows =
        [[0, 0, 0, 1, 0], [0, 0, 1, 0, 0], [1, 1, 1, 0, 0], [0, 0, 0, 0, 0]]) &&
      (okAnd (zs_thinning r.1 0) (fun r2 => decide (r2.1.toRows =
        [[0, 0, 0, 1, 0], [0, 0, 1, 0, 0], [1, 1, 0, 0, 0], [0, 0, 0, 0, 0]] ∧
        ¬ Mat.Same r2.1 r.1 ∧ r2.2 = 6)) &&
      okAnd (zsLog r.1 0) (fun l => decide ((l.map fun e => e.pixelsRemoved) = [1, 0, 0, 0, 0, 0]))))
    (by decide)
  simp only [Bool.and_eq_true] at hp
  obtain ⟨⟨out2, n2⟩, h2, hp2⟩ := okAnd_elim _ _ hp.2.1
  obtain ⟨log2, h3, hp3⟩ := okAnd_elim _ _ hp.2.2
  have hq := of_decide_eq_true hp2
  exact ⟨out, n, out2, n2, log2, h, h2, h3, of_decide_eq_true hp.1, hq.1, hq.2.1, hq.2.2,
    of_decide_eq_true hp3⟩

/-- C9, witness: a 1x1 grid has fewer than 2 rows. -/
theorem zs_thinning_degenerate_witness :
    onePixel.rows < 2 ∧
    ∃ out log, zs_thinning onePixel 0 = .ok (out, 4) ∧ zsLog onePixel 0 = .ok log ∧
      log.length = 4 ∧ (∀ e ∈ log, e.pixelsRemoved = 0) ∧
      ((∀ y x, y < onePixel.rows → x < onePixel.cols → onePixel.cell y x = 0) →
        Mat.Same out onePixel) :=
  ⟨by decide, zs_thinning_degenerate onePixel 0 (Or.inl (by decide))⟩

/-- C9, counterexample: the 2x2 grid `corner2` has fewer than 3 rows, yet the
first pass of `zs_thinning` on it reports one removed pixel and `zs_thinning`
returns 6. -/
theorem zs_thinning_corner2_removes :
    corner2.rows < 3 ∧
    ∃ out n log, zs_thinning corner2 0 = .ok (out, n) ∧ zsLog corner2 0 = .ok log ∧
      n = 6 ∧ (log.map fun e => e.pixelsRemoved) = [1, 0, 0, 0, 0, 0] ∧
      ¬ Mat.Same out corner2 := by
  obtain ⟨⟨out, n⟩, h, hp⟩ := okAnd_elim (zs_thinning corner2 0)
    (fun r => decide (r.2 = 6 ∧ ¬ Mat.Same r.1 corner2)) (by decide)
  obtain ⟨log, hl, hq⟩ := okAnd_elim (zsLog corner2 0)
    (fun l => decide ((l.map fun e => e.pixelsRemoved) = [1, 0, 0, 0, 0, 0])) (by decide)
  exact ⟨by decide, out, n, log, h, hl, (of_decide_eq_true hp).1, of_decide_eq_true hq,
    (of_decide_eq_true hp).2⟩

/-! ## The last row and column, and the pass count bound -/

theorem stageSteps_pass_bound {stage : Nat} {bgColor : T} {s s' : Work T}
    (h : StageSteps stage bgColor s s') :
    ∃ k r, s'.pass = s.pass + 2 * k ∧ k ≤ r + 1 ∧
      r + fgCount s'.work0 bgColor ≤ fgCount s.work0 bgColor := by
  induction h with
  | last s _ =>
    refine ⟨1, 0, rfl, by omega, ?_⟩
    have := sweep_fgCount stage bgColor s
    omega
  | more s s' hpos _ ih =>
    obtain ⟨k, r, hp, hk, hr⟩ := ih
    have := sweep_fgCount stage bgColor s
    refine ⟨k + 1, r + sweepRemoved stage bgColor s, ?_, by omega, by omega⟩
    rw [hp]
    show s.pass + 2 + 2 * k = _
    omega

/-- C19 (pass count upper bound): the pass count `zs_thinning` returns is at
most twice the number of foreground cells of the source plus four. -/
theorem zs_thinning_pass_le (src : Mat T) (bgColor : T) :
    ∃ out n, zs_thinning src bgColor = .ok (out, n) ∧ n ≤ 2 * fgCount src bgColor + 4 := by
  obtain ⟨s0, s1, h0, h1, hz, _⟩ := zs_thinning_ok src bgColor
  obtain ⟨k0, r0, hp0, hk0, hr0⟩ := stageSteps_pass_bound h0
  obtain ⟨k1, r1, hp1, hk1, hr1⟩ := stageSteps_pass_bound h1
  have hinit : (initWork src bgColor).pass = 0 := rfl
  have hfg : fgCount (initWork src bgColor).work0 bgColor = fgCount src bgColor :=
    fgCount_padded src bgColor
  refine ⟨_, _, hz, ?_⟩
  omega

/-! ## Padding invariant and bounds safety -/

theorem stageLoop_no_oob (stage : Nat) (bgColor : T) :
    ∀ (fuel : Nat) (s : Work T), s.Good →
      stageLoop stage bgColor fuel s = .error .outOfFuel ∨
      ∃ s', stageLoop stage bgColor fuel s = .ok s' ∧ s'.Good := by
  intro fuel
  induction fuel with
  | zero => intro s _; exact Or.inl rfl
  | succ fuel ih =>
    intro s hg
    rw [stageLoop_succ stage bgColor fuel s hg]
    by_cases hr : sweepRemoved stage bgColor s > 0
    · rw [if_pos hr]
      exact ih _ (sweepWork_good stage bgColor s hg)
    · rw [if_neg hr]
      exact Or.inr ⟨_, rfl, sweepWork_good stage bgColor s hg⟩

/-- C15 (bounds safety): every pass on two buffers of the padded dimensions
(rows+2, cols+2) completes without an access outside a buffer or the table,
whatever the number of rows and columns of the source; so no run of
`zs_thinning`, with whatever fuel, stops on an out-of-bounds access. -/
theorem zs_thinning_in_bounds (src : Mat T) (bgColor : T) :
    (∀ (a b : Mat T) (stage pass : Nat), a.rows = src.rows + 2 → a.cols = src.cols + 2 →
      b.rows = src.rows + 2 → b.cols = src.cols + 2 →
      ∃ r, _thin a b stage pass bgColor = .ok r) ∧
    (∀ fuel, zsRun fuel src bgColor ≠ .error .outOfBounds) ∧
    zs_thinning src bgColor ≠ .error .outOfBounds := by
  refine ⟨?_, ?_, ?_⟩
  · intro a b stage pass har hac hbr hbc
    exact ⟨_, thin_ok a b stage pass bgColor (by rw [hbr, har]) (by rw [hbc, hac])
      (by rw [hac]; omega)⟩
  · intro fuel
    show (stageLoop 0 bgColor fuel (initWork src bgColor) >>= _) ≠ _
    rcases stageLoop_no_oob 0 bgColor fuel _ (initWork_good src bgColor) with h | ⟨s0, h, hg⟩
    · rw [h]
      intro hc
      cases hc
    · rw [h, ok_bind]
      rcases stageLoop_no_oob 1 bgColor fuel s0 hg with h' | ⟨s1, h', _⟩
      · rw [h']
        intro hc
        cases hc
      · rw [h']
        intro hc
        cases hc
  · obtain ⟨s0, s1, _, _, hz, _⟩ := zs_thinning_ok src bgColor
    rw [hz]
    intro hc
    cases hc

/-! ## End points, isolated pixels and surrounded pixels -/

theorem rflagsOf_cases (stage : Nat) : rflagsOf stage = rflagsOf 0 ∨ rflagsOf stage = rflagsOf 1 := by
  by_cases h : stage = 0
  · left; rw [h]
  · right
    unfold rflagsOf
    rw [if_pos h, if_pos (by decide)]

set_option maxRecDepth 4096 in
theorem sparse_flag_zero (stage : Nat) (b1 b2 b3 b4 b6 b7 b8 b9 : Bool)
    (h : count8 b1 b2 b3 b4 b6 b7 b8 b9 ≤ 1 ∨ count8 b1 b2 b3 b4 b6 b7 b8 b9 = 8) :
    flagAt (rflagsOf stage) (code8 b1 b2 b3 b4 b6 b7 b8 b9) = 0 := by
  rcases rflagsOf_cases stage with e | e <;> rw [e] <;> revert h <;>
    cases b1 <;> cases b2 <;> cases b3 <;> cases b4 <;> cases b6 <;> cases b7 <;>
    cases b8 <;> cases b9 <;> decide

set_option maxRecDepth 4096 in
theorem sparse_entries_zero (stage : Nat) :
    ∀ i ∈ [0, 1, 2, 4, 8, 16, 32, 64, 128, 255], (rflagsOf stage).getD i 0 = 0 := by
  rcases rflagsOf_cases stage with e | e <;> rw [e] <;> decide

/-- C18 (end points, isolated and surrounded pixels): in both stages and for
both pass parities, a foreground cell the scan of `_thin` visits that has at
most one foreground cell among its 8 neighbours, or all eight, is copied
unchanged to `dst`, and the returned count is the number of other visited cells
the table tells the pass to remove; the entries 0, 1, 2, 4, 8, 16, 32, 64, 128
and 255 of both tables are 0. -/
theorem thin_keeps_sparse_and_surrounded (src dst : Mat T) (stage pass : Nat) (bgColor : T)
    (y x : Nat) (hdr : dst.rows = src.rows) (hdc : dst.cols = src.cols) (hc : 2 ≤ src.cols)
    (hs : scanned src y x = true) (hfg : src.cell y x ≠ bgColor)
    (hn : neighbourCount src bgColor y x ≤ 1 ∨ neighbourCount src bgColor y x = 8) :
    ∃ dst' r, _thin src dst stage pass bgColor = .ok (dst', r) ∧
      dst'.cell y x = src.cell y x ∧
      r = countCells src.rows src.cols (fun y' x' => decide (¬ (y' = y ∧ x' = x)) &&
        (scanned src y' x' && removedAt src (rflagsOf stage) (rmaskOf pass) bgColor y' x')) ∧
      ∀ i ∈ [0, 1, 2, 4, 8, 16, 32, 64, 128, 255], (rflagsOf stage).getD i 0 = 0 := by
  have hflag : flagAt (rflagsOf stage) (neighbourCode src bgColor y x) = 0 :=
    sparse_flag_zero stage _ _ _ _ _ _ _ _ hn
  have hfgb : src.fg bgColor y x = true := by simp [Mat.fg, hfg]
  have hkept : keptAt src (rflagsOf stage) (rmaskOf pass) bgColor y x = true := by
    simp [keptAt, hfgb, hflag]
  have hrem : removedAt src (rflagsOf stage) (rmaskOf pass) bgColor y x = false := by
    simp [removedAt, hflag]
  refine ⟨_, _, thin_ok src dst stage pass bgColor hdr hdc hc, ?_, ?_, sparse_entries_zero stage⟩
  · have hs' := hs
    simp only [scanned, decide_eq_true_eq] at hs'
    show thinCell src (rflagsOf stage) (rmaskOf pass) bgColor y x = src.cell y x
    unfold thinCell
    rw [if_pos ⟨hs'.1, hs'.2.1, hs'.2.2.1, hs'.2.2.2, hkept⟩]
  · rw [thinRemoved_eq_sum, countCells_eq_sum]
    apply Finset.sum_congr rfl
    intro y' _
    apply Finset.sum_congr rfl
    intro x' _
    by_cases h : y' = y ∧ x' = x
    · obtain ⟨rfl, rfl⟩ := h
      simp [hrem]
    · simp [h]

/-! ## The incremental encoder -/

/-- The column loop body is `slideWindow` followed by `colTail`. -/
theorem colStep_eq (src : Mat T) (rflags : List Nat) (rmask : Nat) (bgColor : T)
    (py cy ny cx nx : Nat) (w : Window T) :
    colStep src rflags rmask bgColor py cy ny cx nx w =
      (slideWindow src bgColor py cy ny nx w >>= fun r =>
        colTail rflags rmask bgColor cy cx r.1 w.p6 r.2 w.dst w.pixelsRemoved) := by
  unfold colStep slideWindow colTail
  cases src.read py nx with
  | error e => rfl
  | ok p3 =>
    cases src.read cy nx with
    | error e => rfl
    | ok p6 =>
      cases src.read ny nx with
      | error e => rfl
      | ok p9 => rfl

/-- The row loop body is `rowStart` followed by the column loop. -/
theorem rowStep_eq (src : Mat T) (rflags : List Nat) (rmask : Nat) (bgColor : T)
    (py cy ny : Nat) (dst : Mat T) (pixelsRemoved : Nat) :
    rowStep src rflags rmask bgColor py cy ny dst pixelsRemoved =
      (rowStart src bgColor py cy ny dst pixelsRemoved >>= fun w0 =>
        colLoop src rflags rmask bgColor py cy ny (src.cols - 1 - 2) 1 w0 >>= fun w =>
          pure (w.dst, w.pixelsRemoved)) := by
  unfold rowStep rowStart
  dsimp only
  cases src.read py 0 with
  | error e => rfl
  | ok p2 =>
    cases src.read py 1 with
    | error e => rfl
    | ok p3 =>
      cases src.read cy 0 with
      | error e => rfl
      | ok p5 =>
        cases src.read cy 1 with
        | error e => rfl
        | ok p6 =>
          cases src.read ny 0 with
          | error e => rfl
          | ok p8 =>
            cases src.read ny 1 with
            | error e => rfl
            | ok p9 => rfl

/-- The column loop passes through the state its first `k` iterations leave. -/
theorem colLoop_add (src : Mat T) (rflags : List Nat) (rmask : Nat) (bgColor : T)
    (py cy ny : Nat) (m : Nat) :
    ∀ (k cx : Nat) (w : Window T),
      colLoop src rflags rmask bgColor py cy ny (k + m) cx w =
        (colLoop src rflags rmask bgColor py cy ny k cx w >>= fun w' =>
          colLoop src rflags rmask bgColor py cy ny m (cx + k) w') := by
  intro k
  induction k with
  | zero =>
    intro cx w
    rw [Nat.zero_add]
    rfl
  | succ k ih =>
    intro cx w
    have e : k + 1 + m = (k + m) + 1 := by omega
    rw [e]
    show (colStep src rflags rmask bgColor py cy ny cx (cx + 1) w >>= fun w' =>
        colLoop src rflags rmask bgColor py cy ny (k + m) (cx + 1) w') =
      ((colStep src rflags rmask bgColor py cy ny cx (cx + 1) w >>= fun w' =>
        colLoop src rflags rmask bgColor py cy ny k (cx + 1) w') >>= _)
    cases colStep src rflags rmask bgColor py cy ny cx (cx + 1) w with
    | error e => rfl
    | ok w1 =>
      rw [ok_bind, ok_bind, ih (cx + 1) w1]
      have e2 : cx + 1 + k = cx + (k + 1) := by omega
      rw [e2]

theorem code8_bits (b1 b2 b3 b4 b6 b7 b8 b9 : Bool) :
    (code8 b1 b2 b3 b4 b6 b7 b8 b9).testBit 0 = b1 ∧
    (code8 b1 b2 b3 b4 b6 b7 b8 b9).testBit 1 = b2 ∧
    (code8 b1 b2 b3 b4 b6 b7 b8 b9).testBit 2 = b3 ∧
    (code8 b1 b2 b3 b4 b6 b7 b8 b9).testBit 3 = b6 ∧
    (code8 b1 b2 b3 b4 b6 b7 b8 b9).testBit 4 = b9 ∧
    (code8 b1 b2 b3 b4 b6 b7 b8 b9).testBit 5 = b8 ∧
    (code8 b1 b2 b3 b4 b6 b7 b8 b9).testBit 6 = b7 ∧
    (code8 b1 b2 b3 b4 b6 b7 b8 b9).testBit 7 = b4 ∧
    (code8 b1 b2 b3 b4 b6 b7 b8 b9).testBit 8 = false := by
  cases b1 <;> cases b2 <;> cases b3 <;> cases b4 <;> cases b6 <;> cases b7 <;>
    cases b8 <;> cases b9 <;> decide

theorem rowStart_ok (src : Mat T) (bgColor : T) (py : Nat) (dst : Mat T) (pixelsRemoved : Nat)
    (hy : py + 2 < src.rows) (hc : 2 ≤ src.cols) :
    ∃ w0, rowStart src bgColor py (py + 1) (py + 2) dst pixelsRemoved = .ok w0 ∧
      w0.dst = dst ∧ w0.p6 = src.cell (py + 1) 1 ∧ headInv src bgColor (py + 1) 1 w0.index := by
  unfold rowStart
  dsimp only
  rw [read_ok src (by omega) (by omega), read_ok src (by omega) (by omega),
    read_ok src (by omega) (by omega), read_ok src (by omega) (by omega),
    read_ok src (by omega) (by omega), read_ok src (by omega) (by omega)]
  simp only [ok_bind, orIf_eq]
  refine ⟨_, rfl, rfl, rfl, ?_⟩
  unfold headInv
  rw [head_init]
  rfl

/-- After `n` iterations the column loop holds what it needs of the next
window: `p6` and the bits of `index` the slide keeps. -/
theorem colLoop_head (src : Mat T) (rflags : List Nat) (rmask : Nat) (bgColor : T)
    (py : Nat) (hfl : rflags.length = 256) (hy : py + 2 < src.rows) :
    ∀ (n cx : Nat) (w : Window T), cx + n < src.cols →
      w.dst.rows = src.rows → w.dst.cols = src.cols →
      w.p6 = src.cell (py + 1) cx → headInv src bgColor (py + 1) cx w.index →
      ∃ w', colLoop src rflags rmask bgColor py (py + 1) (py + 2) n cx w = .ok w' ∧
        w'.dst.rows = src.rows ∧ w'.dst.cols = src.cols ∧
        w'.p6 = src.cell (py + 1) (cx + n) ∧ headInv src bgColor (py + 1) (cx + n) w'.index := by
  intro n
  induction n with
  | zero =>
    intro cx w _ hdr hdc hp6 hidx
    exact ⟨w, rfl, hdr, hdc, hp6, hidx⟩
  | succ n ih =>
    intro cx w hx hdr hdc hp6 hidx
    obtain ⟨w1, hstep, hp61, hidx1, hdr1, hdc1, _, _⟩ :=
      colStep_ok src rflags rmask bgColor py cx w hfl hy (by omega) hdr hdc hp6 hidx
    obtain ⟨w2, hloop, hdr2, hdc2, hp62, hidx2⟩ :=
      ih (cx + 1) w1 (by omega) hdr1 hdc1 hp61 hidx1
    have e : cx + 1 + n = cx + (n + 1) := by omega
    rw [e] at hp62 hidx2
    refine ⟨w2, ?_, hdr2, hdc2, hp62, hidx2⟩
    show (colStep src rflags rmask bgColor py (py + 1) (py + 2) cx (cx + 1) w >>= _) = _
    rw [hstep]
    exact hloop

theorem slideWindow_ok (src : Mat T) (bgColor : T) (py cx : Nat) (w : Window T)
    (hy : py + 2 < src.rows) (hx : cx + 1 < src.cols)
    (hidx : headInv src bgColor (py + 1) cx w.index) :
    slideWindow src bgColor py (py + 1) (py + 2) (cx + 1) w =
      .ok (neighbourCode src bgColor (py + 1) cx, src.cell (py + 1) (cx + 1)) := by
  have hcode : ((w.index &&& 0x106) >>> 1 ||| (w.index &&& 0x030) <<< 1) |||
      bitIf (src.fg bgColor py (cx + 1)) 0x04 ||| bitIf (src.fg bgColor (py + 1) (cx + 1)) 0x08 |||
      bitIf (src.fg bgColor (py + 2) (cx + 1)) 0x10 = neighbourCode src bgColor (py + 1) cx := by
    have := slide_eq w.index _ _ _ _ _ (src.fg bgColor py (cx + 1))
      (src.fg bgColor (py + 1) (cx + 1)) (src.fg bgColor (py + 2) (cx + 1)) hidx
    simpa [neighbourCode] using this
  unfold slideWindow
  rw [read_ok src (by omega) hx, read_ok src (by omega) hx, read_ok src (by omega) hx]
  simp only [ok_bind, orIf_eq]
  have hfg : ∀ y x, decide (src.cell y x ≠ bgColor) = src.fg bgColor y x := fun _ _ => rfl
  simp only [hfg, hcode]
  rfl

/-- C14 (incremental encoder): at every cell `(cy,cx)` the scan of `_thin`
visits, the window the column loop has built (the row start, then `cx - 1`
iterations) slides to an `index` that is the directly computed code of the 8
neighbours: bit 0x01 is NW, 0x02 N, 0x04 NE, 0x08 E, 0x10 SE, 0x20 S, 0x40 SW,
0x80 W, each set exactly when that neighbour differs from the background; the
index is below 256 and its centre bit 0x100 is not set. -/
theorem index_at_lookup_is_neighbour_code (src dst : Mat T) (stage pass : Nat) (bgColor : T)
    (pixelsRemoved cy cx : Nat) (hdr : dst.rows = src.rows) (hdc : dst.cols = src.cols)
    (hs : scanned src cy cx = true) :
    ∃ w0 w index,
      rowStart src bgColor (cy - 1) cy (cy + 1) dst pixelsRemoved = .ok w0 ∧
      colLoop src (rflagsOf stage) (rmaskOf pass) bgColor (cy - 1) cy (cy + 1) (cx - 1) 1 w0
        = .ok w ∧
      slideWindow src bgColor (cy - 1) cy (cy + 1) (cx + 1) w = .ok (index, src.cell cy (cx + 1)) ∧
      index = neighbourCode src bgColor cy cx ∧ index < 256 ∧
      index.testBit 0 = src.fg bgColor (cy - 1) (cx - 1) ∧
      index.testBit 1 = src.fg bgColor (cy - 1) cx ∧
      index.testBit 2 = src.fg bgColor (cy - 1) (cx + 1) ∧
      index.testBit 3 = src.fg bgColor cy (cx + 1) ∧
      index.testBit 4 = src.fg bgColor (cy + 1) (cx + 1) ∧
      index.testBit 5 = src.fg bgColor (cy + 1) cx ∧
      index.testBit 6 = src.fg bgColor (cy + 1) (cx - 1) ∧
      index.testBit 7 = src.fg bgColor cy (cx - 1) ∧
      index.testBit 8 = false := by
  simp only [scanned, decide_eq_true_eq] at hs
  obtain ⟨py, rfl⟩ : ∃ py, cy = py + 1 := ⟨cy - 1, by omega⟩
  obtain ⟨k, rfl⟩ : ∃ k, cx = k + 1 := ⟨cx - 1, by omega⟩
  simp only [Nat.add_sub_cancel]
  obtain ⟨w0, h0, hd0, hp0, hi0⟩ :=
    rowStart_ok src bgColor py dst pixelsRemoved (by omega) (by omega)
  obtain ⟨w, hw, _, _, hp, hi⟩ :=
    colLoop_head src (rflagsOf stage) (rmaskOf pass) bgColor py (rflagsOf_length stage)
      (by omega) k 1 w0 (by omega) (by rw [hd0]; exact hdr) (by rw [hd0]; exact hdc) hp0 hi0
  have e : 1 + k = k + 1 := by omega
  rw [e] at hp hi
  have hsl := slideWindow_ok src bgColor py (k + 1) w (by omega) (by omega) hi
  have hb := code8_bits (src.fg bgColor (py + 1 - 1) (k + 1 - 1)) (src.fg bgColor (py + 1 - 1) (k + 1))
    (src.fg bgColor (py + 1 - 1) (k + 1 + 1)) (src.fg bgColor (py + 1) (k + 1 - 1))
    (src.fg bgColor (py + 1) (k + 1 + 1)) (src.fg bgColor (py + 1 + 1) (k + 1 - 1))
    (src.fg bgColor (py + 1 + 1) (k + 1)) (src.fg bgColor (py + 1 + 1) (k + 1 + 1))
  simp only [Nat.add_sub_cancel] at hb
  refine ⟨w0, w, neighbourCode src bgColor (py + 1) (k + 1), h0, hw, hsl, rfl,
    code8_lt _ _ _ _ _ _ _ _, ?_⟩
  have hnc : neighbourCode src bgColor (py + 1) (k + 1) =
      code8 (src.fg bgColor py k) (src.fg bgColor py (k + 1))
        (src.fg bgColor py (k + 1 + 1)) (src.fg bgColor (py + 1) k)
        (src.fg bgColor (py + 1) (k + 1 + 1)) (src.fg bgColor (py + 1 + 1) k)
        (src.fg bgColor (py + 1 + 1) (k + 1)) (src.fg bgColor (py + 1 + 1) (k + 1 + 1)) := by
    unfold neighbourCode
    simp only [Nat.add_sub_cancel]
  rw [hnc]
  exact hb

/-! ## Value independence -/

/-- C11 (canonical shape, amended): for the filled 5x5 block of value 255 on
background 0 `zs_thinning` returns 8 and the grid whose foreground is the four
cells (2,3), (2,4), (3,2), (4,2), each with value 255. -/
theorem zs_thinning_block5_result :
    ∃ out, zs_thinning block5 0 = .ok (out, 8) ∧
      out.toRows =
        [[0, 0, 0, 0, 0, 0, 0],
         [0, 0, 0, 0, 0, 0, 0],
         [0, 0, 0, 255, 255, 0, 0],
         [0, 0, 255, 0, 0, 0, 0],
         [0, 0, 255, 0, 0, 0, 0],
         [0, 0, 0, 0, 0, 0, 0],
         [0, 0, 0, 0, 0, 0, 0]] := by
  obtain ⟨⟨out, n⟩, h, hp⟩ := okAnd_elim (zs_thinning block5 0)
    (fun r => decide (r.2 = 8 ∧ r.1.toRows =
        [[0, 0, 0, 0, 0, 0, 0],
         [0, 0, 0, 0, 0, 0, 0],
         [0, 0, 0, 255, 255, 0, 0],
         [0, 0, 255, 0, 0, 0, 0],
         [0, 0, 255, 0, 0, 0, 0],
         [0, 0, 0, 0, 0, 0, 0],
         [0, 0, 0, 0, 0, 0, 0]])) (by decide)
  have hq := of_decide_eq_true hp
  have hn : n = 8 := hq.1
  subst hn
  exact ⟨out, h, hq.2⟩

/-- C11, counterexample: the grid `zs_thinning` returns for the filled 5x5
block has four foreground cells, so not exactly one, and its foreground is not
a plus-shaped cross. -/
theorem zs_thinning_block5_not_cross :
    ∃ out n, zs_thinning block5 0 = .ok (out, n) ∧
      fgCells out 0 = [(2, 3), (2, 4), (3, 2), (4, 2)] ∧ fgCount out 0 ≠ 1 ∧
      isPlus out 0 = false := by
  obtain ⟨⟨out, n⟩, h, hp⟩ := okAnd_elim (zs_thinning block5 0)
    (fun r => decide (fgCells r.1 0 = [(2, 3), (2, 4), (3, 2), (4, 2)] ∧ fgCount r.1 0 ≠ 1 ∧
      isPlus r.1 0 = false)) (by decide)
  exact ⟨out, n, h, of_decide_eq_true hp⟩

/-- C12 (pass executor postcondition), the code at the failing input `dot3`:
the interior cell (1,1) of the 3x3 buffer is foreground and its table entry has
no bit in common with the mask, yet the pass leaves background in `dst` there. -/
theorem thin_skips_last_interior_cell :
    Mat.Same (padded onePixel 0) dot3 ∧
    ∃ dst r, _thin dot3 blank3 0 0 0 = .ok (dst, r) ∧
      1 ≤ dot3.rows - 2 ∧ 1 ≤ dot3.cols - 2 ∧ dot3.cell 1 1 ≠ 0 ∧
      (rflagsOf 0).getD (neighbourCode dot3 0 1 1) 0 &&& rmaskOf 0 = 0 ∧
      dst.cell 1 1 = 0 := by
  obtain ⟨⟨dst, r⟩, h, hp⟩ := okAnd_elim (_thin dot3 blank3 0 0 0)
    (fun p => decide (1 ≤ dot3.rows - 2 ∧ 1 ≤ dot3.cols - 2 ∧ dot3.cell 1 1 ≠ 0 ∧
      (rflagsOf 0).getD (neighbourCode dot3 0 1 1) 0 &&& rmaskOf 0 = 0 ∧
      p.1.cell 1 1 = 0)) (by decide)
  exact ⟨by decide, dst, r, h, of_decide_eq_true hp⟩

/-- C13 (pass executor return value), the code at the failing input `dot3`:
the source has a background outer ring, the pass returns 0, and one cell that
is foreground in the source is background in `dst` after the pass. -/
theorem thin_undercounts_removed :
    Mat.Same (padded onePixel 0) dot3 ∧ RingBg 0 dot3 ∧
    ∃ dst r, _thin dot3 blank3 0 0 0 = .ok (dst, r) ∧ r = 0 ∧
      countCells 3 3 (fun y x => dot3.fg 0 y x && !dst.fg 0 y x) = 1 := by
  obtain ⟨⟨dst, r⟩, h, hp⟩ := okAnd_elim (_thin dot3 blank3 0 0 0)
    (fun p => decide (p.2 = 0 ∧
      countCells 3 3 (fun y x => dot3.fg 0 y x && !p.1.fg 0 y x) = 1)) (by decide)
  refine ⟨by decide, ?_, dst, r, h, of_decide_eq_true hp⟩
  intro y x hy hx hring
  have hall : ∀ y, y < 3 → ∀ x, x < 3 → (y = 0 ∨ y + 1 = 3 ∨ x = 0 ∨ x + 1 = 3) →
      dot3.cell y x = 0 := by decide
  exact hall y hy x hx hring

/-- The check `isPlus` accepts a plus-shaped cross. -/
theorem isPlus_plus5 : isPlus plus5 0 = true := by decide

/-- C14, witness: at the scanned cell (3,3) of the padded 5x5 block, whose 8
neighbours are all foreground, the index at the lookup is 255. -/
theorem index_at_lookup_witness :
    scanned (padded block5 0) 3 3 = true ∧
    ∃ w0 w, rowStart (padded block5 0) 0 2 3 4 (padded block5 0) 0 = .ok w0 ∧
      colLoop (padded block5 0) (rflagsOf 0) (rmaskOf 0) 0 2 3 4 2 1 w0 = .ok w ∧
      slideWindow (padded block5 0) 0 2 3 4 4 w = .ok (255, 255) := by
  obtain ⟨w0, w, index, h0, hw, hsl, hidx, _⟩ :=
    index_at_lookup_is_neighbour_code (padded block5 0) (padded block5 0) 0 0 0 0 3 3 rfl rfl
      (by decide)
  have h255 : index = 255 := by rw [hidx]; decide
  subst h255
  exact ⟨by decide, w0, w, h0, hw, hsl⟩

/-- C18, witness: the pixel at (1,1) of the padded grid `twoCorners` has no
foreground neighbour, and the first pass copies it. -/
theorem thin_keeps_sparse_witness :
    neighbourCount (padded twoCorners 0) 0 1 1 = 0 ∧
    ∃ dst r, _thin (padded twoCorners 0) (padded twoCorners 0) 0 0 0 = .ok (dst, r) ∧
      dst.cell 1 1 = 1 := by
  obtain ⟨dst, r, h, hcell, _⟩ :=
    thin_keeps_sparse_and_surrounded (padded twoCorners 0) (padded twoCorners 0) 0 0 0 1 1
      rfl rfl (by decide) (by decide) (by decide) (by decide)
  exact ⟨by decide, dst, r, h, hcell⟩

end ZsThinning
